import Mathlib

/-!
# link-nest-server: the WebSocket connection registry

A shallow embedding of `internal/websocket/manager.go` (the `Manager`, its `Run`
loop and `SendToUser`), of the two pumps of `internal/websocket/handler.go`, and of
the two methods of `internal/service/clipboard_service.go`.

Modelling conventions

* A `*Client` is a pointer; it is modelled by a natural number, and the objects the
  pointers denote live in a heap `Nat → Client`.
* A Go `chan []byte` is a record of its capacity, its pending payloads (oldest first)
  and whether it has been closed. Each `Client` owns its channel, as in `ServeWs`.
* A Go runtime panic (closing a closed channel, sending on a closed channel) is the
  result `none`.
* `map[uint]map[*Client]bool` is an association list from user ids to the list of the
  keys of the inner map; the helper functions below give it the behaviour of a Go map.
* The cases of `Run`, `SendToUser` and the pumps are functions of the state, one per
  goroutine; what a goroutine hands to another one (a client sent on `m.unregister`) is not
  part of its own effect. Where the interleaving of goroutines matters, the statements of a
  method are atomic steps taken under a schedule.
-/

namespace LinkNest

/-- A Go byte slice, the payload carried by a mailbox. -/
abbrev Bytes := List Nat

/-- A buffered Go channel of byte slices: `make(chan []byte, cap)`. -/
structure Chan where
  cap : Nat
  buf : List Bytes
  closed : Bool
deriving DecidableEq, Repr

/-- The struct `Client` of manager.go; `ConnClosed` is the state of the transport `Conn`. -/
structure Client where
  UserID : Nat
  Send : Chan
  ConnClosed : Bool
deriving DecidableEq, Repr

/-- The heap of `Client` objects together with the field `clients` of the `Manager`. -/
structure World where
  heap : Nat → Client
  clients : List (Nat × List Nat)

/-! ## Go maps -/

/-- The lookup `m[k]` with its `ok` flag. -/
def mapGet : List (Nat × List Nat) → Nat → Option (List Nat)
  | [], _ => none
  | (k0, v) :: rest, k => if k0 = k then some v else mapGet rest k

/-- The assignment `m[k] = v`. -/
def mapSet : List (Nat × List Nat) → Nat → List Nat → List (Nat × List Nat)
  | [], k, v => [(k, v)]
  | (k0, v0) :: rest, k, v => if k0 = k then (k, v) :: rest else (k0, v0) :: mapSet rest k v

/-- The builtin `delete(m, k)` on the outer map. -/
def mapDelete (m : List (Nat × List Nat)) (k : Nat) : List (Nat × List Nat) :=
  m.filter (fun e => decide (e.1 ≠ k))

/-- The keys a `range` over the outer map visits. -/
def mapKeys (m : List (Nat × List Nat)) : List Nat :=
  m.map Prod.fst

/-- The assignment `set[c] = true` on an inner map, given by its keys. -/
def setInsert (s : List Nat) (c : Nat) : List Nat :=
  if c ∈ s then s else s ++ [c]

/-- The builtin `delete(set, c)` on an inner map, given by its keys. -/
def setDelete (s : List Nat) (c : Nat) : List Nat :=
  s.filter (fun x => decide (x ≠ c))

/-! ## Channels -/

/-- The outcome of `select { case ch <- m: ... default: ... }`. -/
inductive SelectSend where
  | sent (ch : Chan)
  | full
  | panicked
deriving DecidableEq, Repr

/-- The non-blocking send of `SendToUser` and of the broadcast case: sending on a closed
channel panics, a channel with room takes the payload at its tail, and otherwise the
`default` branch is chosen. -/
def Chan.trySend (ch : Chan) (message : Bytes) : SelectSend :=
  if ch.closed then SelectSend.panicked
  else if ch.buf.length < ch.cap then SelectSend.sent { ch with buf := ch.buf ++ [message] }
  else SelectSend.full

/-- The builtin `close(ch)`: closing a closed channel panics. -/
def Chan.close (ch : Chan) : Option Chan :=
  if ch.closed then none else some { ch with closed := true }

/-- Store a new state of `client.Send` in the heap. -/
def setSend (heap : Nat → Client) (client : Nat) (ch : Chan) : Nat → Client :=
  Function.update heap client { heap client with Send := ch }

/-! ## manager.go -/

/-- The state `NewManager` builds: no owner has an entry. -/
def NewManager (heap : Nat → Client) : World :=
  { heap := heap, clients := [] }

/-- The `register` case of `Manager.Run`. -/
def register (w : World) (client : Nat) : World :=
  let uid := (w.heap client).UserID
  let clients1 :=
    match mapGet w.clients uid with
    | some _ => w.clients
    | none => mapSet w.clients uid []
  match mapGet clients1 uid with
  | some set => { w with clients := mapSet clients1 uid (setInsert set client) }
  | none => { w with clients := mapSet clients1 uid (setInsert [] client) }

/-- The `unregister` case of `Manager.Run`. -/
def unregister (w : World) (client : Nat) : Option World :=
  let uid := (w.heap client).UserID
  match mapGet w.clients uid with
  | none => some w
  | some set =>
    if client ∈ set then
      let set1 := setDelete set client
      match (w.heap client).Send.close with
      | none => none
      | some ch =>
        if set1.length = 0 then
          some { heap := setSend w.heap client ch, clients := mapDelete w.clients uid }
        else
          some { heap := setSend w.heap client ch, clients := mapSet w.clients uid set1 }
    else some w

/-- One iteration of the loop `for client := range clients` shared by `SendToUser` and the
broadcast case: a non-blocking send, and on a full mailbox `close(client.Send)` followed by
`delete(clients, client)`. -/
def deliverOne (message : Bytes) (heap : Nat → Client) (clients : List Nat) (client : Nat) :
    Option ((Nat → Client) × List Nat) :=
  match (heap client).Send.trySend message with
  | SelectSend.panicked => none
  | SelectSend.sent ch => some (setSend heap client ch, clients)
  | SelectSend.full =>
    match (heap client).Send.close with
    | none => none
    | some ch => some (setSend heap client ch, setDelete clients client)

/-- The loop `for client := range clients` over the keys the inner map has when the loop
starts; `clients` is the inner map as the iterations leave it. -/
def deliverLoop (message : Bytes) :
    List Nat → (Nat → Client) → List Nat → Option ((Nat → Client) × List Nat)
  | [], heap, clients => some (heap, clients)
  | client :: rest, heap, clients =>
    match deliverOne message heap clients client with
    | none => none
    | some (heap1, clients1) => deliverLoop message rest heap1 clients1

/-- The method `Manager.SendToUser`. The inner map is a reference, so the deletions of the
loop are visible in `m.clients[userID]`; the entry itself is never deleted here. -/
def SendToUser (w : World) (userID : Nat) (message : Bytes) : Option World :=
  match mapGet w.clients userID with
  | some clients =>
    match deliverLoop message clients w.heap clients with
    | none => none
    | some (heap1, clients1) =>
      some { heap := heap1, clients := mapSet w.clients userID clients1 }
  | none => some w

/-- The body of `for _, userClients := range m.clients` for one key of the outer map. -/
def broadcastUser (message : Bytes) (w : World) (userID : Nat) : Option World :=
  match mapGet w.clients userID with
  | some userClients =>
    match deliverLoop message userClients w.heap userClients with
    | none => none
    | some (heap1, clients1) =>
      some { heap := heap1, clients := mapSet w.clients userID clients1 }
  | none => some w

/-- The outer loop of the broadcast case over a list of keys. -/
def broadcastLoop (message : Bytes) : List Nat → World → Option World
  | [], w => some w
  | userID :: rest, w =>
    match broadcastUser message w userID with
    | none => none
    | some w1 => broadcastLoop message rest w1

/-- The `broadcast` case of `Manager.Run`. -/
def broadcast (w : World) (message : Bytes) : Option World :=
  broadcastLoop message (mapKeys w.clients) w

/-- The receive `message, ok := <-client.Send` of `writePump` when a payload is pending:
the oldest payload leaves the mailbox. -/
def recv (w : World) (client : Nat) : World :=
  { w with
    heap := setSend w.heap client
      ({ (w.heap client).Send with buf := (w.heap client).Send.buf.tail }) }

/-- The registry states the program reaches: `NewManager`, then any sequence of the cases of
`Run`, of `SendToUser` calls and of mailbox reads by the write pumps. A client is handed to
`register` as `ServeWs` does it, with a mailbox that has not been closed. -/
inductive Reachable : World → Prop
  | init (heap : Nat → Client) : Reachable (NewManager heap)
  | register (w : World) (client : Nat) :
      Reachable w → (w.heap client).Send.closed = false → Reachable (register w client)
  | unregister (w w1 : World) (client : Nat) :
      Reachable w → unregister w client = some w1 → Reachable w1
  | sendToUser (w w1 : World) (userID : Nat) (message : Bytes) :
      Reachable w → SendToUser w userID message = some w1 → Reachable w1
  | broadcast (w w1 : World) (message : Bytes) :
      Reachable w → broadcast w message = some w1 → Reachable w1
  | recv (w : World) (client : Nat) : Reachable w → Reachable (recv w client)

/-! ## Vocabulary of the statements -/

/-- The client is a key of the inner map stored under `userID`. -/
def Registered (w : World) (userID client : Nat) : Prop :=
  ∃ set, mapGet w.clients userID = some set ∧ client ∈ set

/-- The entry of `userID`, when there is one, is a well-formed set of live connections: as the
key set of a Go map it holds no pointer twice, and the mailbox of each member is open. -/
def EntryOk (w : World) (userID : Nat) : Prop :=
  match mapGet w.clients userID with
  | none => True
  | some set => set.Nodup ∧ ∀ p ∈ set, (w.heap p).Send.closed = false

instance instDecidableEntryOk (w : World) (userID : Nat) : Decidable (EntryOk w userID) := by
  unfold EntryOk
  split <;> infer_instance

/-- The mailbox has no room: a send takes the `default` branch. -/
def Chan.isFull (ch : Chan) : Prop := ch.cap ≤ ch.buf.length

instance instDecidableIsFull (ch : Chan) : Decidable ch.isFull := by
  unfold Chan.isFull
  infer_instance

/-- What one iteration of the delivery loop leaves of a client whose mailbox is open: the
payload at the tail of the mailbox when there is room, a closed mailbox otherwise. -/
def afterDeliver (message : Bytes) (c : Client) : Client :=
  if c.Send.buf.length < c.Send.cap then
    { c with Send := { c.Send with buf := c.Send.buf ++ [message] } }
  else
    { c with Send := { c.Send with closed := true } }

/-- Two devices of user 1 behind pointers 1 and 2, every mailbox of capacity 1; the mailbox of
pointer 2 already holds a payload. Pointer 3 and the others belong to user 2. -/
def twoDevices : World where
  heap := fun p =>
    if p = 1 then { UserID := 1, Send := { cap := 1, buf := [], closed := false }, ConnClosed := false }
    else if p = 2 then
      { UserID := 1, Send := { cap := 1, buf := [[9]], closed := false }, ConnClosed := false }
    else { UserID := 2, Send := { cap := 1, buf := [], closed := false }, ConnClosed := false }
  clients := [(1, [1, 2]), (2, [3])]

/-- The registry invariant: every inner map holds each pointer once, and each member is a
client of that owner whose mailbox is open. -/
def Inv (w : World) : Prop :=
  ∀ u set, mapGet w.clients u = some set →
    set.Nodup ∧ ∀ p ∈ set, (w.heap p).UserID = u ∧ (w.heap p).Send.closed = false

/-- The number `len(m.clients[userID])` that `Run` logs: the cardinality of the set of the
owner, 0 when the owner has no entry. -/
def clientCount (w : World) (userID : Nat) : Nat :=
  match mapGet w.clients userID with
  | some set => set.length
  | none => 0

/-- A heap of clients as `ServeWs` builds them: `Send: make(chan []byte, 256)`, nothing
pending, transport open; every pointer belongs to user 7. -/
def freshHeap : Nat → Client := fun _ =>
  { UserID := 7, Send := { cap := 256, buf := [], closed := false }, ConnClosed := false }

/-- A number of consecutive `SendToUser` calls with the same owner and payload, none of which
is read by a write pump. -/
def sendTimes : Nat → World → Nat → Bytes → Option World
  | 0, w, _, _ => some w
  | n + 1, w, userID, message =>
    match SendToUser w userID message with
    | none => none
    | some w1 => sendTimes n w1 userID message

/-! ## handler.go and clipboard_service.go -/

/-- The anonymous struct `msg` of `readPump`. -/
structure Frame where
  ContentType : String
  Content : String
  SourceDevice : String
deriving DecidableEq, Repr

/-- The struct `ClipboardEntry` of the models package; the associations `User` and `Team`, which
no code here reads, are left out, and times are numbers. -/
structure ClipboardEntry where
  ID : Nat
  UserID : Nat
  ContentType : String
  Content : String
  SourceDevice : String
  IsShared : Bool
  TeamID : Option Nat
  CreatedAt : Nat
  DeletedAt : Option Nat
deriving DecidableEq, Repr

/-- The method `clipboardService.CreateClipboardEntry`. The repository call `CreateEntry`, which
fills in the entry it is given or fails, is a parameter. -/
def CreateClipboardEntry (CreateEntry : ClipboardEntry → Except String ClipboardEntry)
    (userID : Nat) (contentType content sourceDevice : String) :
    Except String ClipboardEntry :=
  let entry : ClipboardEntry :=
    { ID := 0, UserID := userID, ContentType := contentType, Content := content,
      SourceDevice := sourceDevice, IsShared := false, TeamID := none, CreatedAt := 0,
      DeletedAt := none }
  match CreateEntry entry with
  | Except.error err => Except.error ("failed to create clipboard entry: " ++ err)
  | Except.ok stored => Except.ok stored

/-- The calls a read pump makes on its collaborators, in the order it makes them. -/
inductive Event where
  | persist (userID : Nat) (contentType content sourceDevice : String)
  | sendToUser (userID : Nat) (message : Bytes)
  | unregister (client : Nat)
  | connClose (client : Nat)
deriving DecidableEq, Repr

/-- The event is a call of the persistence collaborator. -/
def Event.isPersist : Event → Bool
  | Event.persist _ _ _ _ => true
  | _ => false

/-- The event is a call of `SendToUser`. -/
def Event.isSend : Event → Bool
  | Event.sendToUser _ _ => true
  | _ => false

/-- The body of the loop of `readPump` for a message that was read without error: the calls it
makes and the state it leaves (`none` after a panic). Every path ends in `continue` or at the
end of the body. `decode` is `json.Unmarshal` into `msg`, `marshal` is `json.Marshal`. -/
def readPumpMessage (decode : Bytes → Option Frame)
    (CreateEntry : ClipboardEntry → Except String ClipboardEntry)
    (marshal : ClipboardEntry → Option Bytes)
    (w : World) (client : Nat) (message : Bytes) : List Event × Option World :=
  match decode message with
  | none => ([], some w)
  | some msg =>
    if msg.ContentType = "" ∨ msg.Content = "" then ([], some w)
    else
      let userID := (w.heap client).UserID
      let call := Event.persist userID msg.ContentType msg.Content msg.SourceDevice
      match CreateClipboardEntry CreateEntry userID msg.ContentType msg.Content
          msg.SourceDevice with
      | Except.error _ => ([call], some w)
      | Except.ok entry =>
        match marshal entry with
        | none => ([call], some w)
        | some jsonEntry =>
          ([call, Event.sendToUser userID jsonEntry], SendToUser w userID jsonEntry)

/-- The call `client.Conn.Close()`. -/
def connClose (w : World) (client : Nat) : World :=
  { w with heap := Function.update w.heap client { w.heap client with ConnClosed := true } }

/-- The function `readPump` run on the results of its successive `ReadMessage` calls, `none`
being a read error: the error leaves the loop and runs the deferred function. Its first call,
`UnregisterClient`, is the send `m.unregister <- client` on an unbuffered channel: it hands
the client to the goroutine of `Run` and returns, and the `unregister` case then runs in that
goroutine, as a step of its own (`unregister`). Its second call, `client.Conn.Close()`, closes
the transport. So the pump itself changes nothing but the transport. An empty list is a pump
that is still waiting in `ReadMessage`. -/
def readPump (decode : Bytes → Option Frame)
    (CreateEntry : ClipboardEntry → Except String ClipboardEntry)
    (marshal : ClipboardEntry → Option Bytes) :
    List (Option Bytes) → World → Nat → List Event × Option World
  | [], w, _ => ([], some w)
  | none :: _, w, client =>
    ([Event.unregister client, Event.connClose client], some (connClose w client))
  | some message :: rest, w, client =>
    match readPumpMessage decode CreateEntry marshal w client message with
    | (calls, none) => (calls, none)
    | (calls, some w1) =>
      ((calls ++ (readPump decode CreateEntry marshal rest w1 client).1),
        (readPump decode CreateEntry marshal rest w1 client).2)

/-- Two devices of user 1 behind pointers 1 and 2 with empty mailboxes of capacity 256. -/
def twoReady : World where
  heap := fun _ =>
    { UserID := 1, Send := { cap := 256, buf := [], closed := false }, ConnClosed := false }
  clients := [(1, [1, 2])]

/-- A decoder that reads every message as the frame of the scenario. -/
def helloDecode : Bytes → Option Frame := fun _ =>
  some { ContentType := "text", Content := "hello", SourceDevice := "deviceA" }

/-- A repository that stores every entry under the identity 41. -/
def storeAs41 : ClipboardEntry → Except String ClipboardEntry := fun e =>
  Except.ok { e with ID := 41 }

/-- An encoder that keeps the identity of the record. -/
def idMarshal : ClipboardEntry → Option Bytes := fun e => some [e.ID]

/-- A decoder that reads every message as a frame with empty required fields. -/
def emptyDecode : Bytes → Option Frame := fun _ =>
  some { ContentType := "", Content := "", SourceDevice := "deviceA" }

/-- The method `clipboardService.GetUserClipboardHistory`; `limit` and `offset` are Go `int`s,
which are only compared here. The repository query `GetEntriesByUserID` is a parameter. -/
def GetUserClipboardHistory
    (GetEntriesByUserID : Nat → Int → Int → Except String (List ClipboardEntry))
    (userID : Nat) (limit offset : Int) : Except String (List ClipboardEntry) :=
  let limit1 := if limit ≤ 0 ∨ limit > 100 then 20 else limit
  let offset1 := if offset < 0 then 0 else offset
  match GetEntriesByUserID userID limit1 offset1 with
  | Except.error err => Except.error ("failed to get user clipboard history: " ++ err)
  | Except.ok entries => Except.ok entries

/-! ## Teardown -/

/-- The teardown effects on a connection: `delete(m.clients[uid], client)`,
`close(client.Send)` and `client.Conn.Close()`. -/
inductive Effect where
  | removed (client : Nat)
  | mailboxClosed (client : Nat)
  | transportClosed (client : Nat)
deriving DecidableEq, Repr

/-- The `unregister` case of `Manager.Run` once more, now with the log of the teardown effects
in the order of its statements: the `delete` comes before the `close`. The case runs in the
goroutine of `Run`, under the write lock. -/
def unregisterLogged (w : World) (client : Nat) : List Effect × Option World :=
  let uid := (w.heap client).UserID
  match mapGet w.clients uid with
  | none => ([], some w)
  | some set =>
    if client ∈ set then
      let set1 := setDelete set client
      match (w.heap client).Send.close with
      | none => ([Effect.removed client], none)
      | some ch =>
        if set1.length = 0 then
          ([Effect.removed client, Effect.mailboxClosed client],
            some { heap := setSend w.heap client ch, clients := mapDelete w.clients uid })
        else
          ([Effect.removed client, Effect.mailboxClosed client],
            some { heap := setSend w.heap client ch, clients := mapSet w.clients uid set1 })
    else ([], some w)

/-- The function `writePump` run on the results of its successive `WriteMessage` calls for
payloads, `false` being a write error. With nothing pending it either finds the mailbox
closed, sends the close frame (whose result it ignores), returns and closes the transport in
its deferred function, or it stays blocked in the receive. A write error returns, and the
deferred function closes the transport: the pump calls nothing else. -/
def writePump : List Bool → World → Nat → List Effect × World
  | [], w, client =>
    match (w.heap client).Send.buf with
    | [] =>
      if (w.heap client).Send.closed then
        ([Effect.transportClosed client], connClose w client)
      else ([], w)
    | _ :: _ => ([], w)
  | written :: rest, w, client =>
    match (w.heap client).Send.buf with
    | [] =>
      if (w.heap client).Send.closed then
        ([Effect.transportClosed client], connClose w client)
      else ([], w)
    | _ :: _ =>
      if written then writePump rest (recv w client) client
      else ([Effect.transportClosed client], connClose (recv w client) client)

/-! ## Goroutines and the lock -/

/-- The state of the `sync.RWMutex` `Manager.mu`: how many goroutines hold the read lock and
whether the write lock is held. -/
structure RWMutex where
  readers : Nat
  writer : Bool
deriving DecidableEq, Repr

/-- The call `mu.RLock()`: it is granted unless the write lock is held (`none`: the caller
waits). Holders of the read lock do not exclude each other. -/
def RWMutex.RLock (mu : RWMutex) : Option RWMutex :=
  if mu.writer then none else some { mu with readers := mu.readers + 1 }

/-- The call `mu.RUnlock()`. -/
def RWMutex.RUnlock (mu : RWMutex) : RWMutex :=
  { mu with readers := mu.readers - 1 }

/-- The call `mu.Lock()` of the `register` and `unregister` cases: it is granted only when
nobody holds the lock in either mode. -/
def RWMutex.Lock (mu : RWMutex) : Option RWMutex :=
  if mu.writer ∨ mu.readers ≠ 0 then none else some { mu with writer := true }

/-- The memory the goroutines share: the heap and the manager, and the lock of the manager. -/
structure Shared where
  world : World
  mu : RWMutex

/-- What one atomic step of a goroutine does: it goes on, it has to wait, or it panics. -/
inductive Outcome (α : Type) where
  | ok (a : α)
  | blocked
  | panicked

/-- The outcome is a panic. -/
def Outcome.isPanic {α : Type} : Outcome α → Bool
  | Outcome.panicked => true
  | _ => false

/-- The program points of one call of `SendToUser`: before `RLock`, before the lookup
`m.clients[userID]`, at the head of the loop with the keys still to visit, in the `default`
branch before `close(client.Send)`, before `delete(clients, client)`, before the deferred
`RUnlock`, and returned. -/
inductive SendPc where
  | start
  | lookup
  | select (todo : List Nat)
  | close (client : Nat) (todo : List Nat)
  | delete (client : Nat) (todo : List Nat)
  | unlock
  | done
deriving DecidableEq, Repr

/-- One atomic step of a goroutine that runs `SendToUser(userID, message)`: each statement of
the method is a step of its own, the non-blocking send being one channel operation. -/
def sendStep (userID : Nat) (message : Bytes) (sh : Shared) :
    SendPc → Outcome (Shared × SendPc)
  | SendPc.start =>
    match sh.mu.RLock with
    | none => Outcome.blocked
    | some mu1 => Outcome.ok ({ sh with mu := mu1 }, SendPc.lookup)
  | SendPc.lookup =>
    match mapGet sh.world.clients userID with
    | some clients => Outcome.ok (sh, SendPc.select clients)
    | none => Outcome.ok (sh, SendPc.unlock)
  | SendPc.select [] => Outcome.ok (sh, SendPc.unlock)
  | SendPc.select (client :: todo) =>
    match (sh.world.heap client).Send.trySend message with
    | SelectSend.panicked => Outcome.panicked
    | SelectSend.sent ch =>
      Outcome.ok ({ sh with world := { sh.world with heap := setSend sh.world.heap client ch } },
        SendPc.select todo)
    | SelectSend.full => Outcome.ok (sh, SendPc.close client todo)
  | SendPc.close client todo =>
    match (sh.world.heap client).Send.close with
    | none => Outcome.panicked
    | some ch =>
      Outcome.ok ({ sh with world := { sh.world with heap := setSend sh.world.heap client ch } },
        SendPc.delete client todo)
  | SendPc.delete client todo =>
    match mapGet sh.world.clients userID with
    | some clients =>
      Outcome.ok ({ sh with world := { sh.world with
          clients := mapSet sh.world.clients userID (setDelete clients client) } },
        SendPc.select todo)
    | none => Outcome.ok (sh, SendPc.select todo)
  | SendPc.unlock => Outcome.ok ({ sh with mu := sh.mu.RUnlock }, SendPc.done)
  | SendPc.done => Outcome.blocked

/-- A number of consecutive steps of one `SendToUser` call that no other goroutine interleaves
with. -/
def sendRun (userID : Nat) (message : Bytes) : Nat → Shared → SendPc → Outcome (Shared × SendPc)
  | 0, sh, pc => Outcome.ok (sh, pc)
  | n + 1, sh, pc =>
    match sendStep userID message sh pc with
    | Outcome.ok (sh1, pc1) => sendRun userID message n sh1 pc1
    | Outcome.blocked => Outcome.blocked
    | Outcome.panicked => Outcome.panicked

/-- A `SendToUser` call in progress in some goroutine (a read pump). -/
structure SendCall where
  userID : Nat
  message : Bytes
  pc : SendPc
deriving DecidableEq, Repr

/-- The goroutines take steps in the order of the schedule, which names the goroutine that
moves next. -/
def runSchedule : List Nat → Shared → List SendCall → Outcome (Shared × List SendCall)
  | [], sh, calls => Outcome.ok (sh, calls)
  | i :: rest, sh, calls =>
    match calls[i]? with
    | none => Outcome.blocked
    | some call =>
      match sendStep call.userID call.message sh call.pc with
      | Outcome.ok (sh1, pc1) => runSchedule rest sh1 (calls.set i { call with pc := pc1 })
      | Outcome.blocked => Outcome.blocked
      | Outcome.panicked => Outcome.panicked

/-- Two devices of user 7, both built as in `ServeWs`: pointer 1 was registered first and 256
payloads were delivered to it without any being read, then pointer 2 was registered. -/
def slowDevice : Option World :=
  (sendTimes 256 (register (NewManager freshHeap) 1) 7 [0]).map (fun w => register w 2)

/-- What a test observes of a run: the holders of the read lock, the program points of the
calls, and whether the mailbox of pointer 1 is closed. -/
def observe : Outcome (Shared × List SendCall) → Option (Nat × List SendPc × Bool)
  | Outcome.ok (sh, calls) =>
    some (sh.mu.readers, calls.map (fun c => c.pc), (sh.world.heap 1).Send.closed)
  | _ => none

/-- The registry after pointers 3, 1 and 2 of `twoDevices` have been registered in this order
in the empty registry: user 2 has the connection 3, user 1 the connections 1 and 2, and the
mailbox of pointer 2 is full. -/
def threeDevices : World :=
  register (register (register (NewManager twoDevices.heap) 3) 1) 2

/-! # Theorems -/

/-! ## Go map lemmas -/

theorem mapGet_mapSet_same (m : List (Nat × List Nat)) (k : Nat) (v : List Nat) :
    mapGet (mapSet m k v) k = some v := by
  induction m with
  | nil => simp [mapSet, mapGet]
  | cons e rest ih =>
    obtain ⟨k0, v0⟩ := e
    by_cases h : k0 = k
    · simp [mapSet, mapGet, h]
    · simp [mapSet, mapGet, h, ih]

theorem mapGet_mapSet_other (m : List (Nat × List Nat)) (k j : Nat) (v : List Nat)
    (hne : j ≠ k) : mapGet (mapSet m k v) j = mapGet m j := by
  induction m with
  | nil =>
    have h : ¬ k = j := fun e => hne e.symm
    simp [mapSet, mapGet, h]
  | cons e rest ih =>
    obtain ⟨k0, v0⟩ := e
    by_cases h : k0 = k
    · have h2 : ¬ k = j := fun e => hne e.symm
      subst h
      simp [mapSet, mapGet, h2]
    · by_cases h3 : k0 = j
      · subst h3
        simp [mapSet, mapGet, h]
      · simp [mapSet, mapGet, h, h3, ih]

theorem mapGet_mapDelete_same (m : List (Nat × List Nat)) (k : Nat) :
    mapGet (mapDelete m k) k = none := by
  induction m with
  | nil => simp [mapDelete, mapGet]
  | cons e rest ih =>
    obtain ⟨k0, v0⟩ := e
    by_cases h : k0 = k
    · simpa [mapDelete, List.filter_cons, h] using ih
    · simpa [mapDelete, List.filter_cons, h, mapGet] using ih

theorem mapGet_mapDelete_other (m : List (Nat × List Nat)) (k j : Nat) (hne : j ≠ k) :
    mapGet (mapDelete m k) j = mapGet m j := by
  induction m with
  | nil => simp [mapDelete, mapGet]
  | cons e rest ih =>
    obtain ⟨k0, v0⟩ := e
    by_cases h : k0 = k
    · subst h
      have h2 : ¬ k0 = j := fun e => hne e.symm
      simpa [mapDelete, List.filter_cons, mapGet, h2] using ih
    · by_cases h3 : k0 = j
      · subst h3
        simp [mapDelete, List.filter_cons, h, mapGet]
      · simpa [mapDelete, List.filter_cons, h, mapGet, h3] using ih

theorem mem_setDelete (s : List Nat) (c q : Nat) : q ∈ setDelete s c ↔ q ∈ s ∧ q ≠ c := by
  simp [setDelete]

theorem mem_setInsert (s : List Nat) (c q : Nat) : q ∈ setInsert s c ↔ q ∈ s ∨ q = c := by
  unfold setInsert
  by_cases h : c ∈ s
  · simp only [h, if_true]
    constructor
    · exact Or.inl
    · rintro (h1 | h1)
      · exact h1
      · exact h1 ▸ h
  · simp [h]

theorem setDelete_nodup (s : List Nat) (c : Nat) (h : s.Nodup) : (setDelete s c).Nodup :=
  h.sublist (List.filter_sublist s)

theorem setInsert_nodup (s : List Nat) (c : Nat) (h : s.Nodup) : (setInsert s c).Nodup := by
  unfold setInsert
  by_cases hc : c ∈ s
  · simpa [hc] using h
  · simp only [hc, if_false]
    exact List.Nodup.append h (List.nodup_singleton c) (by simpa using hc)

theorem setSend_other (heap : Nat → Client) (c q : Nat) (ch : Chan) (h : q ≠ c) :
    setSend heap c ch q = heap q := by
  simp [setSend, Function.update, h]

/-! ## The delivery loop -/

theorem deliverOne_open (message : Bytes) (heap : Nat → Client) (s : List Nat) (c : Nat)
    (hopen : (heap c).Send.closed = false) :
    deliverOne message heap s c =
      some (Function.update heap c (afterDeliver message (heap c)),
        if (heap c).Send.buf.length < (heap c).Send.cap then s else setDelete s c) := by
  unfold deliverOne Chan.trySend Chan.close afterDeliver setSend
  by_cases h : (heap c).Send.buf.length < (heap c).Send.cap
  · simp [hopen, h]
  · simp [hopen, h]

theorem deliverLoop_spec (message : Bytes) (l : List Nat) (hnd : l.Nodup) :
    ∀ (heap : Nat → Client) (s : List Nat),
      (∀ p ∈ l, (heap p).Send.closed = false) →
      ∃ heap1 s1, deliverLoop message l heap s = some (heap1, s1) ∧
        (∀ p, p ∉ l → heap1 p = heap p) ∧
        (∀ p, p ∈ l → heap1 p = afterDeliver message (heap p)) ∧
        (∀ q, q ∈ s1 ↔ q ∈ s ∧ ¬ (q ∈ l ∧ ¬ (heap q).Send.buf.length < (heap q).Send.cap)) ∧
        s1.Sublist s := by
  induction l with
  | nil =>
    intro heap s _
    exact ⟨heap, s, rfl, fun _ _ => rfl, fun _ h => absurd h (List.not_mem_nil _),
      fun q => by simp, List.Sublist.refl s⟩
  | cons c rest ih =>
    intro heap s hopen
    have hc : c ∉ rest := (List.nodup_cons.mp hnd).1
    have hrest : rest.Nodup := (List.nodup_cons.mp hnd).2
    have hco : (heap c).Send.closed = false := hopen c (List.mem_cons_self c rest)
    have hother : ∀ p ∈ rest,
        (Function.update heap c (afterDeliver message (heap c)) p) = heap p := by
      intro p hp
      have : p ≠ c := fun e => hc (e ▸ hp)
      simp [Function.update, this]
    obtain ⟨heap1, s1, hrun, hout, hin, hmem, hsub⟩ :=
      ih hrest (Function.update heap c (afterDeliver message (heap c)))
        (if (heap c).Send.buf.length < (heap c).Send.cap then s else setDelete s c)
        (fun p hp => by rw [hother p hp]; exact hopen p (List.mem_cons_of_mem c hp))
    refine ⟨heap1, s1, ?_, ?_, ?_, ?_, ?_⟩
    · simp only [deliverLoop, deliverOne_open message heap s c hco]
      exact hrun
    · intro p hp
      have hp1 : p ≠ c := fun e => hp (e ▸ List.mem_cons_self c rest)
      have hp2 : p ∉ rest := fun e => hp (List.mem_cons_of_mem c e)
      rw [hout p hp2]
      simp [Function.update, hp1]
    · intro p hp
      rcases List.mem_cons.mp hp with h | h
      · subst h
        rw [hout p hc]
        simp [Function.update]
      · rw [hin p h, hother p h]
    · intro q
      rw [hmem q]
      by_cases hq : q = c
      · subst hq
        by_cases hfull : (heap q).Send.buf.length < (heap q).Send.cap
        · simp [hfull, hc]
        · simp [hfull, hc, mem_setDelete]
      · have hupd : Function.update heap c (afterDeliver message (heap c)) q = heap q := by
          simp [Function.update, hq]
        rw [hupd]
        by_cases hfull : (heap c).Send.buf.length < (heap c).Send.cap
        · simp [hfull, hq]
        · simp [hfull, hq, mem_setDelete]
    · by_cases hfull : (heap c).Send.buf.length < (heap c).Send.cap
      · simpa [hfull] using hsub
      · simp only [hfull, if_false] at hsub
        exact hsub.trans (List.filter_sublist s)

theorem EntryOk_of_get (w : World) (userID : Nat) (set : List Nat) (h : EntryOk w userID)
    (hget : mapGet w.clients userID = some set) :
    set.Nodup ∧ ∀ p ∈ set, (w.heap p).Send.closed = false := by
  unfold EntryOk at h
  rw [hget] at h
  exact h

theorem SendToUser_absent (w : World) (userID : Nat) (message : Bytes)
    (hget : mapGet w.clients userID = none) : SendToUser w userID message = some w := by
  simp [SendToUser, hget]

theorem SendToUser_spec (w : World) (userID : Nat) (message : Bytes) (set : List Nat)
    (hget : mapGet w.clients userID = some set) (hnd : set.Nodup)
    (hopen : ∀ p ∈ set, (w.heap p).Send.closed = false) :
    ∃ w1 set1, SendToUser w userID message = some w1 ∧
      w1.clients = mapSet w.clients userID set1 ∧
      (∀ p, p ∉ set → w1.heap p = w.heap p) ∧
      (∀ p, p ∈ set → w1.heap p = afterDeliver message (w.heap p)) ∧
      (∀ q, q ∈ set1 ↔ q ∈ set ∧ (w.heap q).Send.buf.length < (w.heap q).Send.cap) ∧
      set1.Sublist set := by
  obtain ⟨heap1, s1, hrun, hout, hin, hmem, hsub⟩ :=
    deliverLoop_spec message set hnd w.heap set hopen
  refine ⟨{ heap := heap1, clients := mapSet w.clients userID s1 }, s1, ?_, rfl, hout, hin,
    ?_, hsub⟩
  · simp [SendToUser, hget, hrun]
  · intro q
    rw [hmem q]
    constructor
    · rintro ⟨h1, h2⟩
      refine ⟨h1, ?_⟩
      by_contra h3
      exact h2 ⟨h1, h3⟩
    · rintro ⟨h1, h2⟩
      exact ⟨h1, fun h3 => h3.2 h2⟩

theorem not_registered_of_get_none (w : World) (u p : Nat) (h : mapGet w.clients u = none) :
    ¬ Registered w u p := by
  rintro ⟨set, hset, _⟩
  rw [h] at hset
  cases hset

theorem registered_iff_of_get (w : World) (u p : Nat) (set : List Nat)
    (h : mapGet w.clients u = some set) : Registered w u p ↔ p ∈ set := by
  constructor
  · rintro ⟨set1, hset1, hp⟩
    rw [h] at hset1
    cases hset1
    exact hp
  · exact fun hp => ⟨set, h, hp⟩

theorem registered_congr (w w1 : World) (u p : Nat)
    (h : mapGet w1.clients u = mapGet w.clients u) : Registered w1 u p ↔ Registered w u p := by
  unfold Registered
  rw [h]

theorem SendToUser_ready_spec (w : World) (O : Nat) (M : Bytes) (hok : EntryOk w O)
    (hroom : ∀ p, Registered w O p → ¬ (w.heap p).Send.isFull) :
    ∃ w1, SendToUser w O M = some w1 ∧
      ∀ p, Registered w O p →
        Registered w1 O p ∧ (w1.heap p).Send.buf = (w.heap p).Send.buf ++ [M] := by
  cases hget : mapGet w.clients O with
  | none =>
    exact ⟨w, SendToUser_absent w O M hget,
      fun p hp => absurd hp (not_registered_of_get_none w O p hget)⟩
  | some set =>
    obtain ⟨hnd, hopen⟩ := EntryOk_of_get w O set hok hget
    obtain ⟨w1, set1, hrun, hcl, _, hin, hmem, _⟩ := SendToUser_spec w O M set hget hnd hopen
    refine ⟨w1, hrun, ?_⟩
    intro p hreg
    have hp : p ∈ set := (registered_iff_of_get w O p set hget).mp hreg
    have hlt : (w.heap p).Send.buf.length < (w.heap p).Send.cap := by
      have := hroom p hreg
      unfold Chan.isFull at this
      omega
    have hget1 : mapGet w1.clients O = some set1 := by
      rw [hcl]
      exact mapGet_mapSet_same w.clients O set1
    refine ⟨(registered_iff_of_get w1 O p set1 hget1).mpr ((hmem p).mpr ⟨hp, hlt⟩), ?_⟩
    rw [hin p hp]
    simp [afterDeliver, hlt]

/-- Claim C1. After `SendToUser(O, M)` every connection that was registered under `O` with room
in its mailbox is still registered under `O`, and its mailbox is the previous one with `M`
appended at the tail, whatever the state of the other connections of `O`; when `O` has no
entry the call leaves the state as it is. -/
theorem SendToUser_appends_to_ready (w : World) (O : Nat) (M : Bytes) (hok : EntryOk w O) :
    ∃ w1, SendToUser w O M = some w1 ∧
      (mapGet w.clients O = none → w1 = w) ∧
      ∀ p, Registered w O p → ¬ (w.heap p).Send.isFull →
        Registered w1 O p ∧
        (w1.heap p).Send.buf = (w.heap p).Send.buf ++ [M] ∧
        (w1.heap p).Send.closed = false ∧
        (w1.heap p).Send.cap = (w.heap p).Send.cap ∧
        (w1.heap p).UserID = (w.heap p).UserID := by
  cases hget : mapGet w.clients O with
  | none =>
    refine ⟨w, SendToUser_absent w O M hget, fun _ => rfl, ?_⟩
    rintro p ⟨set, hset, _⟩
    rw [hget] at hset
    cases hset
  | some set =>
    obtain ⟨hnd, hopen⟩ := EntryOk_of_get w O set hok hget
    obtain ⟨w1, set1, hrun, hcl, _, hin, hmem, _⟩ := SendToUser_spec w O M set hget hnd hopen
    refine ⟨w1, hrun, fun h => Option.noConfusion h, ?_⟩
    rintro p ⟨set2, hset2, hp⟩ hroom
    rw [hget] at hset2
    cases hset2
    have hlt : (w.heap p).Send.buf.length < (w.heap p).Send.cap := by
      unfold Chan.isFull at hroom
      omega
    refine ⟨⟨set1, ?_, (hmem p).mpr ⟨hp, hlt⟩⟩, ?_⟩
    · rw [hcl]
      exact mapGet_mapSet_same w.clients O set1
    · rw [hin p hp]
      simp [afterDeliver, hlt, hopen p hp]

/-- The statement of C1 on user 1 of `twoDevices`, where the sibling connection is saturated. -/
theorem SendToUser_appends_to_ready_witness :
    EntryOk twoDevices 1 ∧
    ∃ w1, SendToUser twoDevices 1 [5] = some w1 ∧
      (mapGet twoDevices.clients 1 = none → w1 = twoDevices) ∧
      ∀ p, Registered twoDevices 1 p → ¬ (twoDevices.heap p).Send.isFull →
        Registered w1 1 p ∧
        (w1.heap p).Send.buf = (twoDevices.heap p).Send.buf ++ [[5]] ∧
        (w1.heap p).Send.closed = false ∧
        (w1.heap p).Send.cap = (twoDevices.heap p).Send.cap ∧
        (w1.heap p).UserID = (twoDevices.heap p).UserID :=
  ⟨by decide, SendToUser_appends_to_ready twoDevices 1 [5] (by decide)⟩

/-- Claim C2. After `SendToUser(O, M)` every connection that was registered under `O` with a
full mailbox is evicted: it is no longer in the set of `O`, its mailbox is closed and holds
exactly what it held before, and the call returns. -/
theorem SendToUser_evicts_full (w : World) (O : Nat) (M : Bytes) (hok : EntryOk w O) :
    ∃ w1, SendToUser w O M = some w1 ∧
      ∀ p, Registered w O p → (w.heap p).Send.isFull →
        ¬ Registered w1 O p ∧
        (w1.heap p).Send.closed = true ∧
        (w1.heap p).Send.buf = (w.heap p).Send.buf := by
  cases hget : mapGet w.clients O with
  | none =>
    refine ⟨w, SendToUser_absent w O M hget, ?_⟩
    rintro p ⟨set, hset, _⟩
    rw [hget] at hset
    cases hset
  | some set =>
    obtain ⟨hnd, hopen⟩ := EntryOk_of_get w O set hok hget
    obtain ⟨w1, set1, hrun, hcl, _, hin, hmem, _⟩ := SendToUser_spec w O M set hget hnd hopen
    refine ⟨w1, hrun, ?_⟩
    rintro p ⟨set2, hset2, hp⟩ hfull
    rw [hget] at hset2
    cases hset2
    have hnlt : ¬ (w.heap p).Send.buf.length < (w.heap p).Send.cap := by
      unfold Chan.isFull at hfull
      omega
    refine ⟨?_, ?_⟩
    · rintro ⟨set3, hset3, hp3⟩
      rw [hcl, mapGet_mapSet_same] at hset3
      cases hset3
      exact hnlt ((hmem p).mp hp3).2
    · rw [hin p hp]
      simp [afterDeliver, hnlt]

/-- The statement of C2 on user 1 of `twoDevices`: pointer 2 has capacity 1 and one pending
payload. -/
theorem SendToUser_evicts_full_witness :
    EntryOk twoDevices 1 ∧
    ∃ w1, SendToUser twoDevices 1 [5] = some w1 ∧
      ∀ p, Registered twoDevices 1 p → (twoDevices.heap p).Send.isFull →
        ¬ Registered w1 1 p ∧
        (w1.heap p).Send.closed = true ∧
        (w1.heap p).Send.buf = (twoDevices.heap p).Send.buf :=
  ⟨by decide, SendToUser_evicts_full twoDevices 1 [5] (by decide)⟩

/-! ## The cases of `Run` -/

theorem register_heap (w : World) (c : Nat) : (register w c).heap = w.heap := by
  unfold register
  cases h : mapGet w.clients (w.heap c).UserID <;> simp [h, mapGet_mapSet_same]

theorem register_get_same (w : World) (c : Nat) :
    mapGet (register w c).clients (w.heap c).UserID =
      some (setInsert ((mapGet w.clients (w.heap c).UserID).getD []) c) := by
  unfold register
  cases h : mapGet w.clients (w.heap c).UserID <;> simp [h, mapGet_mapSet_same]

theorem register_get_other (w : World) (c u : Nat) (hne : u ≠ (w.heap c).UserID) :
    mapGet (register w c).clients u = mapGet w.clients u := by
  unfold register
  cases h : mapGet w.clients (w.heap c).UserID <;>
    simp [h, mapGet_mapSet_same, mapGet_mapSet_other _ _ _ _ hne]

theorem unregister_absent (w : World) (c : Nat)
    (h : ¬ Registered w (w.heap c).UserID c) : unregister w c = some w := by
  unfold unregister
  cases hget : mapGet w.clients (w.heap c).UserID with
  | none => simp [hget]
  | some set =>
    have hc : c ∉ set := fun hc => h ⟨set, hget, hc⟩
    simp [hget, hc]

theorem unregister_present (w : World) (c : Nat) (set : List Nat)
    (hget : mapGet w.clients (w.heap c).UserID = some set) (hc : c ∈ set)
    (hopen : (w.heap c).Send.closed = false) :
    unregister w c = some
      { heap := setSend w.heap c { (w.heap c).Send with closed := true },
        clients :=
          if (setDelete set c).length = 0 then mapDelete w.clients (w.heap c).UserID
          else mapSet w.clients (w.heap c).UserID (setDelete set c) } := by
  unfold unregister
  simp only [hget, hc, if_true, Chan.close, hopen]
  by_cases hlen : (setDelete set c).length = 0
  · simp [hlen]
  · simp [hlen]

/-! ## The registry invariant -/

theorem Inv_entryOk (w : World) (h : Inv w) (u : Nat) : EntryOk w u := by
  unfold EntryOk
  cases hget : mapGet w.clients u with
  | none => trivial
  | some set => exact ⟨(h u set hget).1, fun p hp => ((h u set hget).2 p hp).2⟩

theorem Inv_init (heap : Nat → Client) : Inv (NewManager heap) := by
  intro u set hget
  simp [NewManager, mapGet] at hget

theorem Inv_register (w : World) (c : Nat) (h : Inv w)
    (hopen : (w.heap c).Send.closed = false) : Inv (register w c) := by
  intro u set hget
  rw [register_heap]
  by_cases hu : u = (w.heap c).UserID
  · subst hu
    rw [register_get_same] at hget
    cases hget
    cases hold : mapGet w.clients (w.heap c).UserID with
    | none =>
      refine ⟨setInsert_nodup _ _ (by simp), ?_⟩
      intro p hp
      have : p = c := by simpa [mem_setInsert] using hp
      subst this
      exact ⟨rfl, hopen⟩
    | some old =>
      obtain ⟨hnd, hmem⟩ := h _ old hold
      refine ⟨setInsert_nodup _ _ (by simpa using hnd), ?_⟩
      intro p hp
      rcases (mem_setInsert _ _ _).mp hp with hp1 | hp1
      · exact hmem p (by simpa using hp1)
      · subst hp1
        exact ⟨rfl, hopen⟩
  · rw [register_get_other w c u hu] at hget
    exact h u set hget

theorem unregister_total (w : World) (c : Nat) (h : Inv w) : ∃ w1, unregister w c = some w1 := by
  by_cases hr : Registered w (w.heap c).UserID c
  · obtain ⟨set, hget, hc⟩ := hr
    exact ⟨_, unregister_present w c set hget hc ((h _ set hget).2 c hc).2⟩
  · exact ⟨w, unregister_absent w c hr⟩

theorem Inv_unregister (w w1 : World) (c : Nat) (h : Inv w) (hrun : unregister w c = some w1) :
    Inv w1 := by
  by_cases hr : Registered w (w.heap c).UserID c
  · obtain ⟨set, hget, hc⟩ := hr
    rw [unregister_present w c set hget hc ((h _ set hget).2 c hc).2] at hrun
    cases hrun
    intro u set1 hget1
    simp only at hget1
    by_cases hu : u = (w.heap c).UserID
    · subst hu
      by_cases hlen : (setDelete set c).length = 0
      · rw [if_pos hlen, mapGet_mapDelete_same] at hget1
        cases hget1
      · rw [if_neg hlen, mapGet_mapSet_same] at hget1
        cases hget1
        refine ⟨setDelete_nodup _ _ (h _ set hget).1, ?_⟩
        intro p hp
        obtain ⟨hp1, hp2⟩ := (mem_setDelete _ _ _).mp hp
        simp only
        rw [setSend_other _ _ _ _ hp2]
        exact (h _ set hget).2 p hp1
    · have hget2 : mapGet w.clients u = some set1 := by
        by_cases hlen : (setDelete set c).length = 0
        · rwa [if_pos hlen, mapGet_mapDelete_other _ _ _ hu] at hget1
        · rwa [if_neg hlen, mapGet_mapSet_other _ _ _ _ hu] at hget1
      refine ⟨(h u set1 hget2).1, ?_⟩
      intro p hp
      have hpc : p ≠ c := by
        intro e
        subst e
        exact hu ((h u set1 hget2).2 p hp).1.symm
      simp only
      rw [setSend_other _ _ _ _ hpc]
      exact (h u set1 hget2).2 p hp
  · rw [unregister_absent w c hr] at hrun
    cases hrun
    exact h

theorem SendToUser_total (w : World) (O : Nat) (M : Bytes) (h : Inv w) :
    ∃ w1, SendToUser w O M = some w1 := by
  cases hget : mapGet w.clients O with
  | none => exact ⟨w, SendToUser_absent w O M hget⟩
  | some set =>
    obtain ⟨w1, _, hrun, _⟩ := SendToUser_spec w O M set hget (h O set hget).1
      (fun p hp => ((h O set hget).2 p hp).2)
    exact ⟨w1, hrun⟩

theorem Inv_SendToUser (w w1 : World) (O : Nat) (M : Bytes) (h : Inv w)
    (hrun : SendToUser w O M = some w1) : Inv w1 := by
  cases hget : mapGet w.clients O with
  | none =>
    rw [SendToUser_absent w O M hget] at hrun
    cases hrun
    exact h
  | some set =>
    obtain ⟨w2, set1, hrun2, hcl, hout, hin, hmem, hsub⟩ :=
      SendToUser_spec w O M set hget (h O set hget).1 (fun p hp => ((h O set hget).2 p hp).2)
    rw [hrun2] at hrun
    cases hrun
    intro u set2 hget2
    rw [hcl] at hget2
    by_cases hu : u = O
    · subst hu
      rw [mapGet_mapSet_same] at hget2
      cases hget2
      refine ⟨(h u set hget).1.sublist hsub, ?_⟩
      intro p hp
      obtain ⟨hp1, hp2⟩ := (hmem p).mp hp
      rw [hin p hp1]
      obtain ⟨h1, h2⟩ := (h u set hget).2 p hp1
      simp [afterDeliver, hp2, h1, h2]
    · rw [mapGet_mapSet_other _ _ _ _ hu] at hget2
      refine ⟨(h u set2 hget2).1, ?_⟩
      intro p hp
      have hp1 : p ∉ set := by
        intro hp2
        exact hu (((h u set2 hget2).2 p hp).1.symm.trans ((h O set hget).2 p hp2).1)
      rw [hout p hp1]
      exact (h u set2 hget2).2 p hp

theorem broadcastUser_eq (message : Bytes) (w : World) (userID : Nat) :
    broadcastUser message w userID = SendToUser w userID message := rfl

theorem broadcastLoop_inv (message : Bytes) (keys : List Nat) :
    ∀ w, Inv w → ∃ w1, broadcastLoop message keys w = some w1 ∧ Inv w1 := by
  induction keys with
  | nil => exact fun w h => ⟨w, rfl, h⟩
  | cons u rest ih =>
    intro w h
    obtain ⟨w1, hrun⟩ := SendToUser_total w u message h
    obtain ⟨w2, hrun2, h2⟩ := ih w1 (Inv_SendToUser w w1 u message h hrun)
    refine ⟨w2, ?_, h2⟩
    simp only [broadcastLoop, broadcastUser_eq, hrun]
    exact hrun2

theorem Inv_broadcast (w w1 : World) (message : Bytes) (h : Inv w)
    (hrun : broadcast w message = some w1) : Inv w1 := by
  obtain ⟨w2, hrun2, h2⟩ := broadcastLoop_inv message (mapKeys w.clients) w h
  unfold broadcast at hrun
  rw [hrun2] at hrun
  cases hrun
  exact h2

theorem Inv_recv (w : World) (c : Nat) (h : Inv w) : Inv (recv w c) := by
  intro u set hget
  refine ⟨(h u set hget).1, ?_⟩
  intro p hp
  obtain ⟨h1, h2⟩ := (h u set hget).2 p hp
  by_cases hpc : p = c
  · subst hpc
    simp [recv, setSend, h1, h2]
  · simp [recv, setSend_other _ _ _ _ hpc, h1, h2]

theorem Reachable_inv (w : World) (h : Reachable w) : Inv w := by
  induction h with
  | init heap => exact Inv_init heap
  | register w c _ hopen ih => exact Inv_register w c ih hopen
  | unregister w w1 c _ hrun ih => exact Inv_unregister w w1 c ih hrun
  | sendToUser w w1 u m _ hrun ih => exact Inv_SendToUser w w1 u m ih hrun
  | broadcast w w1 m _ hrun ih => exact Inv_broadcast w w1 m ih hrun
  | recv w c _ ih => exact Inv_recv w c ih

/-- Claim C3. In a reachable state `SendToUser(O, M)` returns, leaves the set of every other
owner as it is, and changes neither the heap object (mailbox contents and status) nor the
membership of any connection whose owner identity differs from `O`. -/
theorem SendToUser_frame (w : World) (O : Nat) (M : Bytes) (hr : Reachable w) :
    ∃ w1, SendToUser w O M = some w1 ∧
      (∀ u, u ≠ O → mapGet w1.clients u = mapGet w.clients u) ∧
      ∀ p, (w.heap p).UserID ≠ O →
        w1.heap p = w.heap p ∧ ∀ u, Registered w1 u p ↔ Registered w u p := by
  have h := Reachable_inv w hr
  cases hget : mapGet w.clients O with
  | none =>
    exact ⟨w, SendToUser_absent w O M hget, fun _ _ => rfl, fun _ _ => ⟨rfl, fun _ => Iff.rfl⟩⟩
  | some set =>
    obtain ⟨w1, set1, hrun, hcl, hout, _, hmem, _⟩ :=
      SendToUser_spec w O M set hget (h O set hget).1 (fun p hp => ((h O set hget).2 p hp).2)
    have hother : ∀ u, u ≠ O → mapGet w1.clients u = mapGet w.clients u := by
      intro u hu
      rw [hcl]
      exact mapGet_mapSet_other _ _ _ _ hu
    refine ⟨w1, hrun, hother, ?_⟩
    intro p hp
    have hps : p ∉ set := fun hin => hp ((h O set hget).2 p hin).1
    refine ⟨hout p hps, ?_⟩
    intro u
    by_cases hu : u = O
    · subst hu
      have hget1 : mapGet w1.clients u = some set1 := by
        rw [hcl]
        exact mapGet_mapSet_same _ _ _
      rw [registered_iff_of_get w1 u p set1 hget1, registered_iff_of_get w u p set hget]
      constructor
      · exact fun h1 => ((hmem p).mp h1).1
      · exact fun h1 => absurd h1 hps
    · exact registered_congr w w1 u p (hother u hu)

theorem threeDevices_reachable : Reachable threeDevices :=
  Reachable.register _ 2
    (Reachable.register _ 1 (Reachable.register _ 3 (Reachable.init _) (by decide)) (by decide))
    (by decide)

/-- The statement of C3 for a delivery to user 1 in `threeDevices`, where user 1 has the
connections 1 and 2 and user 2 has the connection 3: the delivery reaches the mailbox of
connection 1 and evicts connection 2, and leaves connection 3 and the set of user 2 alone. -/
theorem SendToUser_frame_witness :
    Reachable threeDevices ∧
    mapGet threeDevices.clients 1 = some [1, 2] ∧
    mapGet threeDevices.clients 2 = some [3] ∧
    (SendToUser threeDevices 1 [5]).map
      (fun w1 => ((w1.heap 1).Send.buf, (w1.heap 2).Send.closed, mapGet w1.clients 1)) =
      some ([[5]], true, some [1]) ∧
    ∃ w1, SendToUser threeDevices 1 [5] = some w1 ∧
      (∀ u, u ≠ 1 → mapGet w1.clients u = mapGet threeDevices.clients u) ∧
      ∀ p, (threeDevices.heap p).UserID ≠ 1 →
        w1.heap p = threeDevices.heap p ∧
        ∀ u, Registered w1 u p ↔ Registered threeDevices u p :=
  ⟨threeDevices_reachable, by decide, by decide, by decide,
    SendToUser_frame threeDevices 1 [5] threeDevices_reachable⟩

theorem unregister_spec (w : World) (c : Nat) (set : List Nat)
    (hget : mapGet w.clients (w.heap c).UserID = some set) (hc : c ∈ set)
    (hopen : (w.heap c).Send.closed = false) :
    ∃ w1, unregister w c = some w1 ∧
      w1.heap c = { w.heap c with Send := { (w.heap c).Send with closed := true } } ∧
      (∀ p, p ≠ c → w1.heap p = w.heap p) ∧
      (setDelete set c = [] → mapGet w1.clients (w.heap c).UserID = none) ∧
      (setDelete set c ≠ [] →
        mapGet w1.clients (w.heap c).UserID = some (setDelete set c)) ∧
      (∀ u, u ≠ (w.heap c).UserID → mapGet w1.clients u = mapGet w.clients u) := by
  refine ⟨_, unregister_present w c set hget hc hopen, ?_, ?_, ?_, ?_, ?_⟩
  · simp [setSend]
  · intro p hp
    exact setSend_other _ _ _ _ hp
  · intro he
    simp [he, mapGet_mapDelete_same]
  · intro he
    simp [he, mapGet_mapSet_same]
  · intro u hu
    by_cases he : setDelete set c = []
    · simp [he, mapGet_mapDelete_other _ _ _ hu]
    · simp [he, mapGet_mapSet_other _ _ _ _ hu]

theorem unregister_spec_absent_after (w w1 : World) (c : Nat) (set : List Nat)
    (h1 : setDelete set c = [] → mapGet w1.clients (w.heap c).UserID = none)
    (h2 : setDelete set c ≠ [] → mapGet w1.clients (w.heap c).UserID = some (setDelete set c)) :
    ¬ Registered w1 (w.heap c).UserID c := by
  by_cases he : setDelete set c = []
  · exact not_registered_of_get_none _ _ _ (h1 he)
  · rw [registered_iff_of_get _ _ _ _ (h2 he), mem_setDelete]
    exact fun h => h.2 rfl

/-- Claim C4. For a connection `c` registered under its owner with its mailbox open, handling
`unregister(c)` returns, removes `c` from the set of the owner, closes the mailbox of `c`
without touching its contents, deletes the entry of the owner when no connection is left and
keeps it with the remaining connections otherwise, and leaves the heap object and the
membership of every other connection, and the set of every other owner, unchanged. -/
theorem unregister_removes (w : World) (c : Nat) (set : List Nat)
    (hget : mapGet w.clients (w.heap c).UserID = some set) (hc : c ∈ set)
    (hopen : (w.heap c).Send.closed = false) :
    ∃ w1, unregister w c = some w1 ∧
      ¬ Registered w1 (w.heap c).UserID c ∧
      (w1.heap c).Send.closed = true ∧
      (w1.heap c).Send.buf = (w.heap c).Send.buf ∧
      (setDelete set c = [] → mapGet w1.clients (w.heap c).UserID = none) ∧
      (setDelete set c ≠ [] →
        mapGet w1.clients (w.heap c).UserID = some (setDelete set c)) ∧
      (∀ u, u ≠ (w.heap c).UserID → mapGet w1.clients u = mapGet w.clients u) ∧
      ∀ p, p ≠ c → w1.heap p = w.heap p ∧ ∀ u, Registered w1 u p ↔ Registered w u p := by
  obtain ⟨w1, hrun, hheap, hout, hempty, hrest, hother⟩ := unregister_spec w c set hget hc hopen
  refine ⟨w1, hrun, unregister_spec_absent_after w w1 c set hempty hrest, ?_, ?_, hempty, hrest,
    hother, ?_⟩
  · rw [hheap]
  · rw [hheap]
  · intro p hp
    refine ⟨hout p hp, ?_⟩
    intro u
    by_cases hu : u = (w.heap c).UserID
    · subst hu
      rw [registered_iff_of_get w _ p set hget]
      by_cases he : setDelete set c = []
      · constructor
        · exact fun h => absurd h (not_registered_of_get_none _ _ _ (hempty he))
        · intro h
          have : p ∈ setDelete set c := (mem_setDelete _ _ _).mpr ⟨h, hp⟩
          rw [he] at this
          exact absurd this (List.not_mem_nil p)
      · rw [registered_iff_of_get w1 _ p _ (hrest he), mem_setDelete]
        exact ⟨fun h => h.1, fun h => ⟨h, hp⟩⟩
    · exact registered_congr w w1 u p (hother u hu)

/-- The statement of C4 for pointer 1 of `twoDevices`, whose owner keeps pointer 2. -/
theorem unregister_removes_witness :
    ∃ w1, unregister twoDevices 1 = some w1 ∧
      ¬ Registered w1 (twoDevices.heap 1).UserID 1 ∧
      (w1.heap 1).Send.closed = true ∧
      (w1.heap 1).Send.buf = (twoDevices.heap 1).Send.buf ∧
      (setDelete [1, 2] 1 = [] → mapGet w1.clients (twoDevices.heap 1).UserID = none) ∧
      (setDelete [1, 2] 1 ≠ [] →
        mapGet w1.clients (twoDevices.heap 1).UserID = some (setDelete [1, 2] 1)) ∧
      (∀ u, u ≠ (twoDevices.heap 1).UserID →
        mapGet w1.clients u = mapGet twoDevices.clients u) ∧
      ∀ p, p ≠ 1 →
        w1.heap p = twoDevices.heap p ∧ ∀ u, Registered w1 u p ↔ Registered twoDevices u p :=
  unregister_removes twoDevices 1 [1, 2] (by decide) (by decide) (by decide)

/-- Claim C5. Handling `unregister(c)` a second time returns the state the first handling
produced, so it neither changes the registry nor closes the mailbox again; and handling it
for a connection that is not in the set of its owner returns the state it was given. The first
handling returns whenever `c`, if registered, has an open mailbox. -/
theorem unregister_idempotent (w : World) (c : Nat)
    (hopen : Registered w (w.heap c).UserID c → (w.heap c).Send.closed = false) :
    ∃ w1, unregister w c = some w1 ∧ unregister w1 c = some w1 ∧
      (¬ Registered w (w.heap c).UserID c → w1 = w) := by
  by_cases hr : Registered w (w.heap c).UserID c
  · obtain ⟨set, hget, hc⟩ := hr
    obtain ⟨w1, hrun, hheap, _, hempty, hrest, _⟩ :=
      unregister_spec w c set hget hc (hopen ⟨set, hget, hc⟩)
    refine ⟨w1, hrun, ?_, fun h => absurd ⟨set, hget, hc⟩ h⟩
    have huid : (w1.heap c).UserID = (w.heap c).UserID := by rw [hheap]
    apply unregister_absent
    rw [huid]
    exact unregister_spec_absent_after w w1 c set hempty hrest
  · exact ⟨w, unregister_absent w c hr, unregister_absent w c hr, fun _ => rfl⟩

/-- The statement of C5 for pointer 1 of `twoDevices`. -/
theorem unregister_idempotent_witness :
    (Registered twoDevices (twoDevices.heap 1).UserID 1 →
      (twoDevices.heap 1).Send.closed = false) ∧
    ∃ w1, unregister twoDevices 1 = some w1 ∧ unregister w1 1 = some w1 ∧
      (¬ Registered twoDevices (twoDevices.heap 1).UserID 1 → w1 = twoDevices) :=
  ⟨fun _ => by decide, unregister_idempotent twoDevices 1 (fun _ => by decide)⟩

theorem clientCount_of_get (w : World) (u : Nat) (set : List Nat)
    (h : mapGet w.clients u = some set) : clientCount w u = set.length := by
  simp [clientCount, h]

/-- Claim C7. Handling `register(c)` is a total function of the state; after it `c` is in the
set stored under the owner identity of `c` (created when the owner had no entry), the heap and
the set of every other owner are unchanged, the connections already in the set stay, and the
cardinality of the set has grown by one for a connection that was not yet a member, which is
what the one caller of `RegisterClient`, `ServeWs`, hands over: a `Client` it has just
allocated. (For a pointer that is already a key of the inner map the assignment changes
nothing.) -/
theorem register_adds (w : World) (c : Nat) :
    Registered (register w c) (w.heap c).UserID c ∧
    (register w c).heap = w.heap ∧
    (∀ u, u ≠ (w.heap c).UserID → mapGet (register w c).clients u = mapGet w.clients u) ∧
    (∀ p, Registered w (w.heap c).UserID p → Registered (register w c) (w.heap c).UserID p) ∧
    (¬ Registered w (w.heap c).UserID c →
      clientCount (register w c) (w.heap c).UserID = clientCount w (w.heap c).UserID + 1) ∧
    (Registered w (w.heap c).UserID c →
      mapGet (register w c).clients (w.heap c).UserID = mapGet w.clients (w.heap c).UserID) := by
  have hsame := register_get_same w c
  refine ⟨⟨_, hsame, (mem_setInsert _ _ _).mpr (Or.inr rfl)⟩, register_heap w c,
    fun u hu => register_get_other w c u hu, ?_, ?_, ?_⟩
  · rintro p ⟨set, hget, hp⟩
    refine ⟨_, hsame, (mem_setInsert _ _ _).mpr (Or.inl ?_)⟩
    simpa [hget] using hp
  · intro hn
    rw [clientCount_of_get _ _ _ hsame]
    cases hget : mapGet w.clients (w.heap c).UserID with
    | none => simp [clientCount, hget, setInsert]
    | some set =>
      have hc : c ∉ set := fun hc => hn ⟨set, hget, hc⟩
      simp [clientCount, hget, setInsert, hc]
  · rintro ⟨set, hget, hc⟩
    rw [hsame, hget]
    simp [setInsert, hc]

/-- The statement of C7 for pointer 2 of `twoDevices` handed to the registry that holds
pointer 1 of the same user: the set of user 1 grows from one connection to two. -/
theorem register_adds_witness :
    ¬ Registered (register (NewManager twoDevices.heap) 1) 1 2 ∧
    Registered (register (register (NewManager twoDevices.heap) 1) 2) 1 2 ∧
    Registered (register (register (NewManager twoDevices.heap) 1) 2) 1 1 ∧
    clientCount (register (NewManager twoDevices.heap) 1) 1 = 1 ∧
    clientCount (register (register (NewManager twoDevices.heap) 1) 2) 1 =
      clientCount (register (NewManager twoDevices.heap) 1) 1 + 1 := by
  have hget : mapGet (register (NewManager twoDevices.heap) 1).clients 1 = some [1] := by
    decide
  have hnew : ¬ Registered (register (NewManager twoDevices.heap) 1) 1 2 := by
    rw [registered_iff_of_get _ 1 2 [1] hget]
    decide
  have h := register_adds (register (NewManager twoDevices.heap) 1) 2
  exact ⟨hnew, h.1, h.2.2.2.1 1 ((registered_iff_of_get _ 1 1 [1] hget).mpr (by decide)),
    by decide, h.2.2.2.2.1 hnew⟩

/-- Claim C8. In every state reachable from the empty registry, a connection that is present in
the membership mapping has an open mailbox. -/
theorem registered_mailbox_open (w : World) (u p : Nat) (hr : Reachable w)
    (hreg : Registered w u p) : (w.heap p).Send.closed = false := by
  obtain ⟨set, hget, hp⟩ := hreg
  exact ((Reachable_inv w hr u set hget).2 p hp).2

/-- The statement of C8 after the registration of pointer 3 of `twoDevices`. -/
theorem registered_mailbox_open_witness :
    Reachable (register (NewManager twoDevices.heap) 3) ∧
    Registered (register (NewManager twoDevices.heap) 3) 2 3 ∧
    ((register (NewManager twoDevices.heap) 3).heap 3).Send.closed = false :=
  ⟨Reachable.register _ 3 (Reachable.init _) (by decide), ⟨[3], by decide, by decide⟩,
    registered_mailbox_open _ 2 3 (Reachable.register _ 3 (Reachable.init _) (by decide))
      ⟨[3], by decide, by decide⟩⟩

theorem sendTimes_reachable (n : Nat) (u : Nat) (m : Bytes) :
    ∀ w w1, Reachable w → sendTimes n w u m = some w1 → Reachable w1 := by
  induction n with
  | zero =>
    intro w w1 hr h
    simp only [sendTimes, Option.some.injEq] at h
    exact h ▸ hr
  | succ n ih =>
    intro w w1 hr h
    simp only [sendTimes] at h
    cases hs : SendToUser w u m with
    | none => simp [hs] at h
    | some w2 =>
      simp only [hs] at h
      exact ih w2 w1 (Reachable.sendToUser w w2 u m hr hs) h

set_option maxRecDepth 100000 in
/-- Claim C6, the code at the failing input. Pointer 1, a client of user 7 as `ServeWs` builds
it, is registered in the empty registry; 257 payloads are delivered to user 7 while nothing
is read from the mailbox, and the last delivery evicts the client; then `unregister` is
handled for it. The state is reachable, no connection of user 7 is left, and user 7 still has
an entry, holding the empty set. -/
theorem evicted_owner_keeps_empty_entry :
    ∃ w1 w2, sendTimes 257 (register (NewManager freshHeap) 1) 7 [0] = some w1 ∧
      unregister w1 1 = some w2 ∧ Reachable w2 ∧ mapGet w2.clients 7 = some [] := by
  have h : ((sendTimes 257 (register (NewManager freshHeap) 1) 7 [0]).bind
      (fun w => unregister w 1)).map (fun w => mapGet w.clients 7) = some (some []) := by
    decide
  cases h1 : sendTimes 257 (register (NewManager freshHeap) 1) 7 [0] with
  | none => simp [h1] at h
  | some w1 =>
    cases h2 : unregister w1 1 with
    | none => simp [h1, h2] at h
    | some w2 =>
      have h3 : mapGet w2.clients 7 = some [] := by simpa [h1, h2] using h
      have hr0 : Reachable (register (NewManager freshHeap) 1) :=
        Reachable.register _ 1 (Reachable.init _) (by decide)
      have hr1 : Reachable w1 := sendTimes_reachable 257 7 [0] _ w1 hr0 h1
      exact ⟨w1, w2, rfl, h2, Reachable.unregister w1 w2 1 hr1 h2, h3⟩

/-! ## The read pump -/

theorem readPumpMessage_valid (decode : Bytes → Option Frame)
    (CreateEntry : ClipboardEntry → Except String ClipboardEntry)
    (marshal : ClipboardEntry → Option Bytes) (w : World) (A : Nat) (message : Bytes)
    (msg : Frame) (hdec : decode message = some msg) (hct : msg.ContentType ≠ "")
    (hc : msg.Content ≠ "") :
    readPumpMessage decode CreateEntry marshal w A message =
      match CreateClipboardEntry CreateEntry (w.heap A).UserID msg.ContentType msg.Content
          msg.SourceDevice with
      | Except.error _ =>
        ([Event.persist (w.heap A).UserID msg.ContentType msg.Content msg.SourceDevice], some w)
      | Except.ok entry =>
        match marshal entry with
        | none =>
          ([Event.persist (w.heap A).UserID msg.ContentType msg.Content msg.SourceDevice],
            some w)
        | some jsonEntry =>
          ([Event.persist (w.heap A).UserID msg.ContentType msg.Content msg.SourceDevice,
              Event.sendToUser (w.heap A).UserID jsonEntry],
            SendToUser w (w.heap A).UserID jsonEntry) := by
  unfold readPumpMessage
  simp only [hdec, hct, hc, or_self, if_false]

theorem readPumpMessage_fans_out (decode : Bytes → Option Frame)
    (CreateEntry : ClipboardEntry → Except String ClipboardEntry)
    (marshal : ClipboardEntry → Option Bytes) (w : World) (A : Nat) (message : Bytes)
    (msg : Frame) (hok : EntryOk w (w.heap A).UserID)
    (hroom : ∀ p, Registered w (w.heap A).UserID p → ¬ (w.heap p).Send.isFull)
    (hdec : decode message = some msg) (hct : msg.ContentType ≠ "") (hc : msg.Content ≠ "") :
    (readPumpMessage decode CreateEntry marshal w A message).1.filter Event.isPersist =
      [Event.persist (w.heap A).UserID msg.ContentType msg.Content msg.SourceDevice] ∧
    ∀ R j,
      CreateClipboardEntry CreateEntry (w.heap A).UserID msg.ContentType msg.Content
        msg.SourceDevice = Except.ok R →
      marshal R = some j →
      ∃ w1, SendToUser w (w.heap A).UserID j = some w1 ∧
        readPumpMessage decode CreateEntry marshal w A message =
          ([Event.persist (w.heap A).UserID msg.ContentType msg.Content msg.SourceDevice,
            Event.sendToUser (w.heap A).UserID j], some w1) ∧
        ∀ p, Registered w (w.heap A).UserID p →
          Registered w1 (w.heap A).UserID p ∧
          (w1.heap p).Send.buf = (w.heap p).Send.buf ++ [j] := by
  rw [readPumpMessage_valid decode CreateEntry marshal w A message msg hdec hct hc]
  constructor
  · cases hR : CreateClipboardEntry CreateEntry (w.heap A).UserID msg.ContentType msg.Content
        msg.SourceDevice with
    | error e => simp [Event.isPersist]
    | ok entry =>
      cases hj : marshal entry with
      | none => simp [hj, Event.isPersist]
      | some j => simp [hj, Event.isPersist]
  · intro R j hR hj
    rw [hR]
    simp only []
    rw [hj]
    obtain ⟨w1, hrun, hall⟩ := SendToUser_ready_spec w (w.heap A).UserID j hok hroom
    exact ⟨w1, hrun, by simp only [hrun], hall⟩

theorem readPump_single (decode : Bytes → Option Frame)
    (CreateEntry : ClipboardEntry → Except String ClipboardEntry)
    (marshal : ClipboardEntry → Option Bytes) (w : World) (A : Nat) (message : Bytes) :
    readPump decode CreateEntry marshal [some message] w A =
      readPumpMessage decode CreateEntry marshal w A message := by
  cases h : readPumpMessage decode CreateEntry marshal w A message with
  | mk calls r =>
    cases r with
    | none => simp [readPump, h]
    | some w1 => simp [readPump, h]

theorem readPump_cons_some (decode : Bytes → Option Frame)
    (CreateEntry : ClipboardEntry → Except String ClipboardEntry)
    (marshal : ClipboardEntry → Option Bytes) (w w1 : World) (A : Nat) (message : Bytes)
    (calls : List Event) (rest : List (Option Bytes))
    (h : readPumpMessage decode CreateEntry marshal w A message = (calls, some w1)) :
    readPump decode CreateEntry marshal (some message :: rest) w A =
      (calls ++ (readPump decode CreateEntry marshal rest w1 A).1,
        (readPump decode CreateEntry marshal rest w1 A).2) := by
  simp [readPump, h]

/-- Claim C9. A frame read by `readPump` on a registered connection `A` of owner `U` that decodes
with non-empty `content_type` and `content` makes the pump call the persistence collaborator
exactly once, with `U` and the three fields of the frame; and when that call returns a record
`R` with encoding `j`, and the mailboxes of the connections of `U` have room, the calls of the
pump for the frame are that one and then `SendToUser(U, j)`, after which `j` is at the tail of
the mailbox of every connection registered under `U`, `A` included, all of which stay
registered; the pump then goes on with the following reads from that state. -/
theorem readPump_fans_out (decode : Bytes → Option Frame)
    (CreateEntry : ClipboardEntry → Except String ClipboardEntry)
    (marshal : ClipboardEntry → Option Bytes) (w : World) (A : Nat) (message : Bytes)
    (msg : Frame) (hok : EntryOk w (w.heap A).UserID)
    (hA : Registered w (w.heap A).UserID A)
    (hroom : ∀ p, Registered w (w.heap A).UserID p → ¬ (w.heap p).Send.isFull)
    (hdec : decode message = some msg) (hct : msg.ContentType ≠ "") (hc : msg.Content ≠ "") :
    (readPump decode CreateEntry marshal [some message] w A).1.filter Event.isPersist =
      [Event.persist (w.heap A).UserID msg.ContentType msg.Content msg.SourceDevice] ∧
    ∀ R j,
      CreateClipboardEntry CreateEntry (w.heap A).UserID msg.ContentType msg.Content
        msg.SourceDevice = Except.ok R →
      marshal R = some j →
      ∃ w1, SendToUser w (w.heap A).UserID j = some w1 ∧
        readPump decode CreateEntry marshal [some message] w A =
          ([Event.persist (w.heap A).UserID msg.ContentType msg.Content msg.SourceDevice,
            Event.sendToUser (w.heap A).UserID j], some w1) ∧
        (∀ rest, readPump decode CreateEntry marshal (some message :: rest) w A =
          ([Event.persist (w.heap A).UserID msg.ContentType msg.Content msg.SourceDevice,
              Event.sendToUser (w.heap A).UserID j] ++
              (readPump decode CreateEntry marshal rest w1 A).1,
            (readPump decode CreateEntry marshal rest w1 A).2)) ∧
        (Registered w1 (w.heap A).UserID A ∧
          (w1.heap A).Send.buf = (w.heap A).Send.buf ++ [j]) ∧
        ∀ p, Registered w (w.heap A).UserID p →
          Registered w1 (w.heap A).UserID p ∧
          (w1.heap p).Send.buf = (w.heap p).Send.buf ++ [j] := by
  obtain ⟨hcount, hdeliver⟩ :=
    readPumpMessage_fans_out decode CreateEntry marshal w A message msg hok hroom hdec hct hc
  refine ⟨?_, ?_⟩
  · rw [readPump_single]
    exact hcount
  · intro R j hR hj
    obtain ⟨w1, hsend, hmsg, hall⟩ := hdeliver R j hR hj
    refine ⟨w1, hsend, ?_, ?_, hall A hA, hall⟩
    · rw [readPump_single]
      exact hmsg
    · intro rest
      exact readPump_cons_some decode CreateEntry marshal w w1 A message _ rest hmsg

/-- The scenario of C9: connections 1 and 2 of user 1 are registered in `twoReady`, the frame
with content type `text` and content `hello` is read by the pump of connection 1, and the
stored record is encoded as the payload `[41]`. -/
theorem readPump_fans_out_witness :
    (readPump helloDecode storeAs41 idMarshal [some [0]] twoReady 1).1.filter Event.isPersist =
      [Event.persist 1 "text" "hello" "deviceA"] ∧
    ∃ w1, readPump helloDecode storeAs41 idMarshal [some [0]] twoReady 1 =
        ([Event.persist 1 "text" "hello" "deviceA", Event.sendToUser 1 [41]], some w1) ∧
      (w1.heap 1).Send.buf = [[41]] ∧ (w1.heap 2).Send.buf = [[41]] := by
  have h := readPump_fans_out helloDecode storeAs41 idMarshal twoReady 1 [0]
    { ContentType := "text", Content := "hello", SourceDevice := "deviceA" }
    (by decide)
    ⟨[1, 2], by decide, by decide⟩
    (fun p _ => by simp [twoReady, Chan.isFull])
    rfl (by decide) (by decide)
  refine ⟨h.1, ?_⟩
  obtain ⟨w1, _, hrun, _, hA, hall⟩ := h.2 _ [41] rfl rfl
  exact ⟨w1, hrun, hA.2, (hall 2 ⟨[1, 2], by decide, by decide⟩).2⟩

/-- Claim C10. A frame that fails to decode, or that decodes with an empty `content_type` or an
empty `content`, makes the read pump call neither the persistence collaborator nor
`SendToUser` (it makes no call at all), leaves the state as it is, so that no mailbox changes
and the connection stays registered with its transport open, and the loop goes on with the
next read exactly as it would have without the frame. -/
theorem readPump_skips_bad_frame (decode : Bytes → Option Frame)
    (CreateEntry : ClipboardEntry → Except String ClipboardEntry)
    (marshal : ClipboardEntry → Option Bytes) (w : World) (client : Nat) (message : Bytes)
    (rest : List (Option Bytes))
    (hbad : decode message = none ∨
      ∃ msg, decode message = some msg ∧ (msg.ContentType = "" ∨ msg.Content = "")) :
    readPumpMessage decode CreateEntry marshal w client message = ([], some w) ∧
    readPump decode CreateEntry marshal (some message :: rest) w client =
      readPump decode CreateEntry marshal rest w client := by
  have h1 : readPumpMessage decode CreateEntry marshal w client message = ([], some w) := by
    unfold readPumpMessage
    rcases hbad with h | ⟨msg, h, hempty⟩
    · simp [h]
    · simp [h, hempty]
  refine ⟨h1, ?_⟩
  simp [readPump, h1]

/-- The scenario of C10: a frame with empty `content_type` and `content` read on connection 1 of
`twoReady`, followed by a read error. -/
theorem readPump_skips_bad_frame_witness :
    (emptyDecode [0] = none ∨
      ∃ msg, emptyDecode [0] = some msg ∧ (msg.ContentType = "" ∨ msg.Content = "")) ∧
    readPumpMessage emptyDecode storeAs41 idMarshal twoReady 1 [0] = ([], some twoReady) ∧
    readPump emptyDecode storeAs41 idMarshal [some [0], none] twoReady 1 =
      readPump emptyDecode storeAs41 idMarshal [none] twoReady 1 :=
  ⟨Or.inr ⟨_, rfl, Or.inl rfl⟩,
    readPump_skips_bad_frame emptyDecode storeAs41 idMarshal twoReady 1 [0] [none]
      (Or.inr ⟨_, rfl, Or.inl rfl⟩)⟩

/-! ## The history query -/

/-- Claim C13. For all integers `limit` and `offset`, `GetUserClipboardHistory` is one query of the
repository for the same user, with a limit between 1 and 100 that is the requested limit
whenever that is between 1 and 100 already, and with the offset `max offset 0`: it returns the
entries of that query, or the error of that query behind the prefix of the service, and has
no other outcome. -/
theorem GetUserClipboardHistory_clamps (userID : Nat) (limit offset : Int) :
    ∃ l : Int, 1 ≤ l ∧ l ≤ 100 ∧ (1 ≤ limit ∧ limit ≤ 100 → l = limit) ∧
      ∀ GetEntriesByUserID : Nat → Int → Int → Except String (List ClipboardEntry),
        GetUserClipboardHistory GetEntriesByUserID userID limit offset =
          match GetEntriesByUserID userID l (max offset 0) with
          | Except.error err =>
            Except.error ("failed to get user clipboard history: " ++ err)
          | Except.ok entries => Except.ok entries := by
  have hoff : (if offset < 0 then (0 : Int) else offset) = max offset 0 := by
    by_cases h : offset < 0
    · rw [if_pos h, max_eq_right (le_of_lt h)]
    · rw [if_neg h, max_eq_left (not_lt.mp h)]
  by_cases h : limit ≤ 0 ∨ limit > 100
  · refine ⟨20, by norm_num, by norm_num, ?_, ?_⟩
    · rintro ⟨h1, h2⟩
      rcases h with h | h <;> omega
    · intro repo
      simp only [GetUserClipboardHistory, if_pos h, hoff]
  · have h1 : 1 ≤ limit := by omega
    have h2 : limit ≤ 100 := by omega
    refine ⟨limit, h1, h2, fun _ => rfl, ?_⟩
    intro repo
    simp only [GetUserClipboardHistory, if_neg h, hoff]

/-- The statement of C13 for the requested limit 500 and offset -3. -/
theorem GetUserClipboardHistory_clamps_witness :
    ∃ l : Int, 1 ≤ l ∧ l ≤ 100 ∧ (1 ≤ (500 : Int) ∧ (500 : Int) ≤ 100 → l = 500) ∧
      ∀ GetEntriesByUserID : Nat → Int → Int → Except String (List ClipboardEntry),
        GetUserClipboardHistory GetEntriesByUserID 7 500 (-3) =
          match GetEntriesByUserID 7 l (max (-3) 0) with
          | Except.error err =>
            Except.error ("failed to get user clipboard history: " ++ err)
          | Except.ok entries => Except.ok entries :=
  GetUserClipboardHistory_clamps 7 500 (-3)

/-! ## Teardown -/

theorem unregisterLogged_state (w : World) (c : Nat) :
    (unregisterLogged w c).2 = unregister w c := by
  unfold unregisterLogged unregister
  cases hget : mapGet w.clients (w.heap c).UserID with
  | none => simp [hget]
  | some set =>
    by_cases hc : c ∈ set
    · cases hcl : (w.heap c).Send.close with
      | none => simp [hget, hc, hcl]
      | some ch =>
        by_cases hlen : (setDelete set c).length = 0
        · simp [hget, hc, hcl, hlen]
        · simp [hget, hc, hcl, hlen]
    · simp [hget, hc]

theorem unregisterLogged_present (w : World) (c : Nat) (set : List Nat)
    (hget : mapGet w.clients (w.heap c).UserID = some set) (hc : c ∈ set)
    (hopen : (w.heap c).Send.closed = false) :
    (unregisterLogged w c).1 = [Effect.removed c, Effect.mailboxClosed c] := by
  unfold unregisterLogged
  by_cases hlen : (setDelete set c).length = 0
  · simp [hget, hc, Chan.close, hopen, hlen]
  · simp [hget, hc, Chan.close, hopen, hlen]

theorem unregisterLogged_absent (w : World) (c : Nat)
    (h : ¬ Registered w (w.heap c).UserID c) : unregisterLogged w c = ([], some w) := by
  unfold unregisterLogged
  cases hget : mapGet w.clients (w.heap c).UserID with
  | none => simp [hget]
  | some set =>
    have hc : c ∉ set := fun hc => h ⟨set, hget, hc⟩
    simp [hget, hc]

theorem connClose_clients (w : World) (c : Nat) : (connClose w c).clients = w.clients := rfl

theorem connClose_heap_other (w : World) (c p : Nat) (h : p ≠ c) :
    (connClose w c).heap p = w.heap p := by
  simp [connClose, Function.update, h]

theorem connClose_heap_same (w : World) (c : Nat) :
    (connClose w c).heap c = { w.heap c with ConnClosed := true } := by
  simp [connClose]

theorem Inv_connClose (w : World) (c : Nat) (h : Inv w) : Inv (connClose w c) := by
  intro u set hget
  refine ⟨(h u set hget).1, ?_⟩
  intro p hp
  obtain ⟨h1, h2⟩ := (h u set hget).2 p hp
  by_cases hpc : p = c
  · subst hpc
    rw [connClose_heap_same]
    exact ⟨h1, h2⟩
  · rw [connClose_heap_other w c p hpc]
    exact ⟨h1, h2⟩

theorem Inv_closed_not_registered (w : World) (c : Nat) (h : Inv w)
    (hcl : (w.heap c).Send.closed = true) (u : Nat) : ¬ Registered w u c := by
  rintro ⟨set, hget, hc⟩
  have := ((h u set hget).2 c hc).2
  rw [hcl] at this
  cases this

theorem Inv_registered_owner (w : World) (c u : Nat) (h : Inv w) (hr : Registered w u c) :
    u = (w.heap c).UserID := by
  obtain ⟨set, hget, hc⟩ := hr
  exact ((h u set hget).2 c hc).1.symm

/-- Claim C11 as stated fails on the write-error trigger. Pointer 1 is registered in the empty
registry and one payload is delivered to it, a reachable state; the write of that payload
fails in `writePump`. The only teardown effect of the pump is the closing of the transport:
afterwards the transport is closed while the connection is still registered under user 7 with
its mailbox open. -/
theorem writePump_closes_registered_transport :
    ∃ w1, SendToUser (register (NewManager freshHeap) 1) 7 [0] = some w1 ∧ Reachable w1 ∧
      (writePump [false] w1 1).1 = [Effect.transportClosed 1] ∧
      Registered (writePump [false] w1 1).2 7 1 ∧
      ((writePump [false] w1 1).2.heap 1).ConnClosed = true ∧
      ((writePump [false] w1 1).2.heap 1).Send.closed = false := by
  have h : (SendToUser (register (NewManager freshHeap) 1) 7 [0]).map
      (fun w1 => ((writePump [false] w1 1).1, mapGet (writePump [false] w1 1).2.clients 7,
        ((writePump [false] w1 1).2.heap 1).ConnClosed,
        ((writePump [false] w1 1).2.heap 1).Send.closed)) =
      some ([Effect.transportClosed 1], some [1], true, false) := by
    decide
  cases h1 : SendToUser (register (NewManager freshHeap) 1) 7 [0] with
  | none => simp [h1] at h
  | some w1 =>
    simp only [h1, Option.map_some', Option.some.injEq, Prod.mk.injEq] at h
    obtain ⟨ha, hb, hc, hd⟩ := h
    have hr0 : Reachable (register (NewManager freshHeap) 1) :=
      Reachable.register _ 1 (Reachable.init _) (by decide)
    exact ⟨w1, rfl, Reachable.sendToUser _ w1 7 [0] hr0 h1, ha, ⟨[1], hb, by decide⟩, hc, hd⟩

theorem connClose_setSend (w : World) (c : Nat) (ch : Chan) (clients : List (Nat × List Nat)) :
    ({ heap := setSend (connClose w c).heap c ch, clients := clients } : World) =
      connClose { heap := setSend w.heap c ch, clients := clients } c := by
  have hheap : setSend (connClose w c).heap c ch =
      (connClose { heap := setSend w.heap c ch, clients := clients } c).heap := by
    funext p
    by_cases hp : p = c
    · subst hp
      simp [setSend, connClose]
    · simp [setSend, connClose, Function.update, hp]
  rw [hheap]
  rfl

/-- The `unregister` case and the closing of the transport by the read pump commute: the case
logs the same effects and ends in the same state whether it runs before or after
`client.Conn.Close()`. -/
theorem unregisterLogged_connClose (w : World) (c : Nat) :
    unregisterLogged (connClose w c) c =
      ((unregisterLogged w c).1, (unregisterLogged w c).2.map (fun w1 => connClose w1 c)) := by
  have hu : ((connClose w c).heap c).UserID = (w.heap c).UserID := by
    rw [connClose_heap_same]
  have hs : ((connClose w c).heap c).Send = (w.heap c).Send := by
    rw [connClose_heap_same]
  unfold unregisterLogged
  simp only [hu, hs, connClose_clients]
  cases hget : mapGet w.clients (w.heap c).UserID with
  | none => simp
  | some set =>
    by_cases hc : c ∈ set
    · cases hcl : (w.heap c).Send.close with
      | none => simp [hc]
      | some ch =>
        by_cases hlen : (setDelete set c).length = 0
        · simp only [hc, if_true, hlen, Option.map_some']
          rw [connClose_setSend]
        · simp only [hc, if_true, hlen, if_false, Option.map_some']
          rw [connClose_setSend]
    · simp [hc]

theorem readPump_error (decode : Bytes → Option Frame)
    (CreateEntry : ClipboardEntry → Except String ClipboardEntry)
    (marshal : ClipboardEntry → Option Bytes) (rest : List (Option Bytes)) (w : World)
    (c : Nat) :
    readPump decode CreateEntry marshal (none :: rest) w c =
      ([Event.unregister c, Event.connClose c], some (connClose w c)) := by
  simp [readPump]

theorem unregisterLogged_registered (w : World) (c : Nat) (hinv : Inv w)
    (hreg : Registered w (w.heap c).UserID c) :
    ∃ w1, unregisterLogged w c = ([Effect.removed c, Effect.mailboxClosed c], some w1) ∧
      unregister w c = some w1 ∧ (∀ u, ¬ Registered w1 u c) ∧
      w1.heap c = { w.heap c with Send := { (w.heap c).Send with closed := true } } := by
  obtain ⟨set, hget, hc⟩ := hreg
  have hopen := ((hinv _ set hget).2 c hc).2
  obtain ⟨w1, hrun, hheap, _, hempty, hrest, hother⟩ := unregister_spec w c set hget hc hopen
  have hlog := unregisterLogged_present w c set hget hc hopen
  have hst := unregisterLogged_state w c
  refine ⟨w1, ?_, hrun, ?_, hheap⟩
  · cases hl : unregisterLogged w c with
    | mk log r =>
      rw [hl] at hlog hst
      simp only at hlog hst
      rw [hrun] at hst
      rw [hlog, hst]
  · intro u hreg1
    by_cases hu : u = (w.heap c).UserID
    · subst hu
      exact unregister_spec_absent_after w w1 c set hempty hrest hreg1
    · have hreg0 : Registered w u c := (registered_congr w w1 u c (hother u hu)).mp hreg1
      exact hu (Inv_registered_owner w c u hinv hreg0)

/-- Claim C11, as the code has it. The teardown effects are spread over three goroutines and
are ordered within each of them only. In a state that satisfies the registry invariant:
on a read error the inbound pump hands the connection to the control loop for `unregister`
and then closes the transport, and changes nothing else, so that a registered connection is
then still registered with an open mailbox and a closed transport; the `unregister` case,
handling a registered connection before or after the pump has closed the transport, removes
it from the set of its owner and then closes its mailbox, and either order ends in the same
state, the connection in no set with mailbox and transport closed; an outbound pump that
finds the mailbox closed with nothing pending closes the transport; and on a write error the
outbound pump closes the transport and does nothing else, so that membership, the owner and
the status of the mailbox are what they were and the invariant still holds. -/
theorem teardown_order (decode : Bytes → Option Frame)
    (CreateEntry : ClipboardEntry → Except String ClipboardEntry)
    (marshal : ClipboardEntry → Option Bytes) (w : World) (c : Nat) (hinv : Inv w) :
    (∀ rest, readPump decode CreateEntry marshal (none :: rest) w c =
      ([Event.unregister c, Event.connClose c], some (connClose w c))) ∧
    (Registered w (w.heap c).UserID c →
      (Registered (connClose w c) (w.heap c).UserID c ∧
        ((connClose w c).heap c).Send.closed = false ∧
        ((connClose w c).heap c).ConnClosed = true) ∧
      ∃ w1, unregister w c = some w1 ∧
        unregisterLogged w c = ([Effect.removed c, Effect.mailboxClosed c], some w1) ∧
        unregisterLogged (connClose w c) c =
          ([Effect.removed c, Effect.mailboxClosed c], some (connClose w1 c)) ∧
        (∀ u, ¬ Registered (connClose w1 c) u c) ∧
        ((connClose w1 c).heap c).Send.closed = true ∧
        ((connClose w1 c).heap c).ConnClosed = true) ∧
    ((w.heap c).Send.closed = true → (w.heap c).Send.buf = [] →
      ∀ writes, writePump writes w c = ([Effect.transportClosed c], connClose w c)) ∧
    ((w.heap c).Send.buf ≠ [] → ∀ writes,
      writePump (false :: writes) w c =
        ([Effect.transportClosed c], connClose (recv w c) c) ∧
      (connClose (recv w c) c).clients = w.clients ∧
      ((connClose (recv w c) c).heap c).Send.closed = (w.heap c).Send.closed ∧
      ((connClose (recv w c) c).heap c).UserID = (w.heap c).UserID ∧
      Inv (connClose (recv w c) c)) := by
  refine ⟨fun rest => readPump_error decode CreateEntry marshal rest w c, ?_, ?_, ?_⟩
  · intro hreg
    obtain ⟨w1, hlog, hrun, hnone, hheap⟩ := unregisterLogged_registered w c hinv hreg
    refine ⟨⟨hreg, ?_, ?_⟩, w1, hrun, hlog, ?_, hnone, ?_, ?_⟩
    · obtain ⟨set, hget, hc⟩ := hreg
      rw [connClose_heap_same]
      exact ((hinv _ set hget).2 c hc).2
    · rw [connClose_heap_same]
    · rw [unregisterLogged_connClose, hlog]
      rfl
    · rw [connClose_heap_same, hheap]
    · rw [connClose_heap_same]
  · intro hcl hbuf writes
    cases writes with
    | nil => simp [writePump, hbuf, hcl]
    | cons b rest => simp [writePump, hbuf, hcl]
  · intro hbuf writes
    refine ⟨?_, rfl, ?_, ?_, Inv_connClose _ c (Inv_recv w c hinv)⟩
    · cases hb : (w.heap c).Send.buf with
      | nil => exact absurd hb hbuf
      | cons m rest => simp [writePump, hb]
    · rw [connClose_heap_same]
      simp [recv, setSend]
    · rw [connClose_heap_same]
      simp [recv, setSend]

/-- The statement of the amended C11 for pointer 1 registered in the empty registry and a read
error on it. -/
theorem teardown_order_witness :
    Inv (register (NewManager freshHeap) 1) ∧
    readPump helloDecode storeAs41 idMarshal [none] (register (NewManager freshHeap) 1) 1 =
      ([Event.unregister 1, Event.connClose 1],
        some (connClose (register (NewManager freshHeap) 1) 1)) ∧
    Registered (connClose (register (NewManager freshHeap) 1) 1) 7 1 ∧
    ((connClose (register (NewManager freshHeap) 1) 1).heap 1).Send.closed = false ∧
    ((connClose (register (NewManager freshHeap) 1) 1).heap 1).ConnClosed = true ∧
    ∃ w1, unregister (register (NewManager freshHeap) 1) 1 = some w1 ∧
      unregisterLogged (connClose (register (NewManager freshHeap) 1) 1) 1 =
        ([Effect.removed 1, Effect.mailboxClosed 1], some (connClose w1 1)) ∧
      (∀ u, ¬ Registered (connClose w1 1) u 1) := by
  have hinv : Inv (register (NewManager freshHeap) 1) :=
    Reachable_inv _ (Reachable.register _ 1 (Reachable.init _) (by decide))
  have h := teardown_order helloDecode storeAs41 idMarshal (register (NewManager freshHeap) 1) 1
    hinv
  obtain ⟨⟨h1, h2, h3⟩, w1, h4, _, h6, h7, _, _⟩ := h.2.1 ⟨[1], by decide, by decide⟩
  exact ⟨hinv, h.1 [], h1, h2, h3, w1, h4, h6, h7⟩

/-! ## Two deliveries at once -/

set_option maxRecDepth 100000 in
theorem slowDevice_runs :
    slowDevice.map (fun w =>
      (observe (runSchedule [0, 1, 0, 1, 0, 1, 0] { world := w, mu := { readers := 0, writer := false } }
          [{ userID := 7, message := [1], pc := SendPc.start },
            { userID := 7, message := [2], pc := SendPc.start }]),
        (runSchedule [0, 1, 0, 1, 0, 1, 0, 1]
          { world := w, mu := { readers := 0, writer := false } }
          [{ userID := 7, message := [1], pc := SendPc.start },
            { userID := 7, message := [2], pc := SendPc.start }]).isPanic,
        mapGet w.clients 7)) =
      some (some (2, [SendPc.delete 1 [2], SendPc.close 1 [2]], true), true, some [1, 2]) := by
  decide

theorem mapSet_mapSet (m : List (Nat × List Nat)) (k : Nat) (a b : List Nat) :
    mapSet (mapSet m k a) k b = mapSet m k b := by
  induction m with
  | nil => simp [mapSet]
  | cons e rest ih =>
    obtain ⟨k0, v0⟩ := e
    by_cases h : k0 = k
    · simp [mapSet, h]
    · simp [mapSet, h, ih]

theorem mapSet_of_get (m : List (Nat × List Nat)) (k : Nat) (v : List Nat)
    (h : mapGet m k = some v) : mapSet m k v = m := by
  induction m with
  | nil => simp [mapGet] at h
  | cons e rest ih =>
    obtain ⟨k0, v0⟩ := e
    by_cases hk : k0 = k
    · subst hk
      simp only [mapGet, if_true, Option.some.injEq] at h
      simp [mapSet, h]
    · simp only [mapGet, hk, if_false] at h
      simp [mapSet, hk, ih h]

theorem sendRun_succ (u : Nat) (m : Bytes) (n : Nat) (sh sh1 : Shared) (pc pc1 : SendPc)
    (h : sendStep u m sh pc = Outcome.ok (sh1, pc1)) :
    sendRun u m (n + 1) sh pc = sendRun u m n sh1 pc1 := by
  simp [sendRun, h]

theorem sendRun_add (u : Nat) (m : Bytes) (a b : Nat) :
    ∀ (sh sh1 : Shared) (pc pc1 : SendPc),
      sendRun u m a sh pc = Outcome.ok (sh1, pc1) →
      sendRun u m (a + b) sh pc = sendRun u m b sh1 pc1 := by
  induction a with
  | zero =>
    intro sh sh1 pc pc1 h
    simp only [sendRun, Outcome.ok.injEq, Prod.mk.injEq] at h
    obtain ⟨h1, h2⟩ := h
    subst h1
    subst h2
    simp
  | succ a ih =>
    intro sh sh1 pc pc1 h
    have hadd : a + 1 + b = (a + b) + 1 := by omega
    rw [hadd]
    cases hs : sendStep u m sh pc with
    | ok r =>
      obtain ⟨sh2, pc2⟩ := r
      rw [sendRun_succ u m a sh sh2 pc pc2 hs] at h
      rw [sendRun_succ u m (a + b) sh sh2 pc pc2 hs]
      exact ih sh2 sh1 pc2 pc1 h
    | blocked => simp [sendRun, hs] at h
    | panicked => simp [sendRun, hs] at h

/-- The loop of `SendToUser` taken step by step, with no other goroutine in between, does what
`deliverLoop` does. -/
theorem sendRun_loop (u : Nat) (m : Bytes) (clients0 : List (Nat × List Nat)) (mu : RWMutex) :
    ∀ (todo : List Nat) (heap : Nat → Client) (cur : List Nat) (heap1 : Nat → Client)
      (s1 : List Nat),
      deliverLoop m todo heap cur = some (heap1, s1) →
      ∃ n, sendRun u m n
          { world := { heap := heap, clients := mapSet clients0 u cur }, mu := mu }
          (SendPc.select todo) =
        Outcome.ok ({ world := { heap := heap1, clients := mapSet clients0 u s1 }, mu := mu },
          SendPc.unlock) := by
  intro todo
  induction todo with
  | nil =>
    intro heap cur heap1 s1 h
    simp only [deliverLoop, Option.some.injEq, Prod.mk.injEq] at h
    obtain ⟨h1, h2⟩ := h
    subst h1
    subst h2
    exact ⟨1, by simp [sendRun, sendStep]⟩
  | cons client rest ih =>
    intro heap cur heap1 s1 h
    simp only [deliverLoop, deliverOne] at h
    cases hts : (heap client).Send.trySend m with
    | panicked => simp [hts] at h
    | sent ch =>
      simp only [hts] at h
      obtain ⟨n, hn⟩ := ih (setSend heap client ch) cur heap1 s1 h
      refine ⟨n + 1, ?_⟩
      rw [sendRun_succ u m n _
        { world := { heap := setSend heap client ch, clients := mapSet clients0 u cur },
          mu := mu } _ (SendPc.select rest) (by simp [sendStep, hts])]
      exact hn
    | full =>
      simp only [hts] at h
      cases hcl : (heap client).Send.close with
      | none => simp [hcl] at h
      | some ch =>
        simp only [hcl] at h
        obtain ⟨n, hn⟩ := ih (setSend heap client ch) (setDelete cur client) heap1 s1 h
        refine ⟨n + 1 + 1 + 1, ?_⟩
        rw [sendRun_succ u m (n + 1 + 1) _
          { world := { heap := heap, clients := mapSet clients0 u cur }, mu := mu } _
          (SendPc.close client rest) (by simp [sendStep, hts])]
        rw [sendRun_succ u m (n + 1) _
          { world := { heap := setSend heap client ch, clients := mapSet clients0 u cur },
            mu := mu } _ (SendPc.delete client rest) (by simp [sendStep, hcl])]
        rw [sendRun_succ u m n _
          ⟨⟨setSend heap client ch, mapSet clients0 u (setDelete cur client)⟩, mu⟩ _
          (SendPc.select rest)
          (by simp [sendStep, mapGet_mapSet_same, mapSet_mapSet])]
        exact hn

/-- A `SendToUser` call that runs alone, from `RLock` to `RUnlock`, ends in the state the
method `SendToUser` returns and gives the lock back as it found it. -/
theorem sendRun_alone (w w1 : World) (u : Nat) (m : Bytes) (readers : Nat)
    (h : SendToUser w u m = some w1) :
    ∃ n, sendRun u m n { world := w, mu := { readers := readers, writer := false } }
        SendPc.start =
      Outcome.ok ({ world := w1, mu := { readers := readers, writer := false } },
        SendPc.done) := by
  cases hget : mapGet w.clients u with
  | none =>
    rw [SendToUser_absent w u m hget] at h
    cases h
    exact ⟨3, by simp [sendRun, sendStep, RWMutex.RLock, RWMutex.RUnlock, hget]⟩
  | some set =>
    simp only [SendToUser, hget] at h
    cases hl : deliverLoop m set w.heap set with
    | none => simp [hl] at h
    | some r =>
      obtain ⟨heap1, s1⟩ := r
      simp only [hl, Option.some.injEq] at h
      subst h
      obtain ⟨n, hn⟩ := sendRun_loop u m w.clients { readers := readers + 1, writer := false }
        set w.heap set heap1 s1 hl
      rw [mapSet_of_get w.clients u set hget] at hn
      refine ⟨2 + (n + 1), ?_⟩
      rw [sendRun_add u m 2 (n + 1) _
        { world := w, mu := { readers := readers + 1, writer := false } } _
        (SendPc.select set) (by simp [sendRun, sendStep, RWMutex.RLock, hget])]
      rw [sendRun_add u m n 1 _ _ _ _ hn]
      simp [sendRun, sendStep, RWMutex.RUnlock]

theorem RWMutex.Lock_excluded (mu : RWMutex) (h : mu.readers ≠ 0) : mu.Lock = none := by
  simp [RWMutex.Lock, h]

theorem RWMutex.RLock_shared (mu : RWMutex) (h : mu.writer = false) :
    mu.RLock = some { mu with readers := mu.readers + 1 } := by
  simp [RWMutex.RLock, h]

set_option maxRecDepth 100000 in
theorem slowDevice_reachable : ∃ w, slowDevice = some w ∧ Reachable w := by
  have hopen : (sendTimes 256 (register (NewManager freshHeap) 1) 7 [0]).map
      (fun w => (w.heap 2).Send.closed) = some false := by
    decide
  unfold slowDevice
  cases h1 : sendTimes 256 (register (NewManager freshHeap) 1) 7 [0] with
  | none => simp [h1] at hopen
  | some w1 =>
    have h2 : (w1.heap 2).Send.closed = false := by simpa [h1] using hopen
    have hr0 : Reachable (register (NewManager freshHeap) 1) :=
      Reachable.register _ 1 (Reachable.init _) (by decide)
    have hr1 : Reachable w1 := sendTimes_reachable 256 7 [0] _ w1 hr0 h1
    exact ⟨register w1 2, rfl, Reachable.register w1 2 hr1 h2⟩

/-- Claim C12, the code at the failing input. In the reachable state `slowDevice` user 7 has the
connections 1 and 2, and the mailbox of connection 1 is full. The read pumps of the two
connections call `SendToUser(7, ·)` at the same time, and the goroutines take their steps in
turn. Both are granted the read lock and hold it together; both find the mailbox of
connection 1 full. After seven steps goroutine 0 has closed that mailbox and stands before its
`delete`, while goroutine 1 stands before its own `close` of the same mailbox: the eviction
by one call runs during the iteration of the other. The eighth step, the `close` of
goroutine 1, panics. -/
theorem concurrent_SendToUser_double_close :
    ∃ w, slowDevice = some w ∧ Reachable w ∧ mapGet w.clients 7 = some [1, 2] ∧
      observe (runSchedule [0, 1, 0, 1, 0, 1, 0]
          { world := w, mu := { readers := 0, writer := false } }
          [{ userID := 7, message := [1], pc := SendPc.start },
            { userID := 7, message := [2], pc := SendPc.start }]) =
        some (2, [SendPc.delete 1 [2], SendPc.close 1 [2]], true) ∧
      (runSchedule [0, 1, 0, 1, 0, 1, 0, 1]
          { world := w, mu := { readers := 0, writer := false } }
          [{ userID := 7, message := [1], pc := SendPc.start },
            { userID := 7, message := [2], pc := SendPc.start }]).isPanic = true := by
  obtain ⟨w, hw, hr⟩ := slowDevice_reachable
  have h := slowDevice_runs
  rw [hw] at h
  simp only [Option.map_some', Option.some.injEq, Prod.mk.injEq] at h
  exact ⟨w, hw, hr, h.2.2, h.1, h.2.1⟩

end LinkNest
